import Mathlib

/-!
Shallow embedding of the sliding-window load limiter implemented in
`load_limiter.py` (classes `LoadLimiter` and `CompositeLoadLimiter`).

Numbers are modelled with `ℚ` (Python floats / ints), the deque of
`[start, load]` pairs with `List (ℤ × ℚ)` (front of the list = left end
of the deque), and the wall clock `time.time()` is made an explicit
parameter `t : ℚ` of every operation.  The monitoring counters
`num_calls` / `total_overhead` and all logging are dropped: they never
influence the admission logic.  Exceptions cannot be raised on the
submit paths of the source, so all operations are total functions.
-/

set_option maxHeartbeats 1000000
set_option maxRecDepth 100000

/-- Python `int()` truncation toward zero of a rational number. -/
def pytrunc (q : ℚ) : ℤ := Int.tdiv q.num (q.den : ℤ)

/-- `math.ceil` of a rational number. -/
def ratCeil (q : ℚ) : ℤ := -(Int.fdiv (-(q.num)) (q.den : ℤ))

/-- The result object `LoadLimiterSubmitResult` of the source. -/
structure SubmitResult where
  accepted : Bool
  retry_in : Option ℚ
deriving Repr, DecidableEq

/-- The immutable fields a `LoadLimiter` stores at construction time
(`__init__`, lines 63-85 of the source). -/
structure Params where
  maxload : ℚ
  period : ℚ
  step_period : ℤ
  num_max_buckets : ℤ
  overstep_penalty : ℤ
  max_cap : ℚ
  compute_tta : Bool
  penalty_distribution_factor : ℚ
  request_overhead_penalty_factor : ℚ
  request_overhead_penalty_distribution_factor : ℚ
deriving Repr, DecidableEq

/-- The mutable state of a `LoadLimiter` together with its parameters.
`queue` is the deque of `[start, load]` buckets, oldest first. -/
structure LoadLimiter where
  params : Params
  queue : List (ℤ × ℚ)
  window_total : ℚ
  was_over : Bool
deriving Repr, DecidableEq

abbrev LoadLimiter.maxload (L : LoadLimiter) : ℚ := L.params.maxload

abbrev LoadLimiter.period (L : LoadLimiter) : ℚ := L.params.period

abbrev LoadLimiter.step_period (L : LoadLimiter) : ℤ := L.params.step_period

abbrev LoadLimiter.num_max_buckets (L : LoadLimiter) : ℤ := L.params.num_max_buckets

abbrev LoadLimiter.overstep_penalty (L : LoadLimiter) : ℤ := L.params.overstep_penalty

abbrev LoadLimiter.max_cap (L : LoadLimiter) : ℚ := L.params.max_cap

abbrev LoadLimiter.compute_tta (L : LoadLimiter) : Bool := L.params.compute_tta

/-- Constructor arguments of `LoadLimiter.__init__` (with the source's
defaults).  `period` is an `int` in the source's signature. -/
structure Config where
  maxload : ℚ := 60
  period : ℤ := 60
  fragmentation : ℚ := 5/100
  penalty_factor : ℚ := 0
  penalty_distribution_factor : ℚ := 1/5
  request_overhead_penalty_factor : ℚ := 0
  request_overhead_penalty_distribution_factor : ℚ := 3/10
  max_penalty_cap_factor : ℚ := 1/4
  compute_tta : Bool := true
deriving Repr, DecidableEq

/-- The validation checks of `__init__` (the `ValueError` guards,
lines 46-61).  A limiter object exists only when these hold. -/
def Config.Valid (c : Config) : Prop :=
  0 < c.maxload ∧ 0 < c.period ∧
  1/100 ≤ c.fragmentation ∧ c.fragmentation ≤ 1 ∧
  0 ≤ c.penalty_factor ∧
  0 ≤ c.penalty_distribution_factor ∧ c.penalty_distribution_factor ≤ 1 ∧
  0 ≤ c.request_overhead_penalty_factor ∧
  0 ≤ c.request_overhead_penalty_distribution_factor ∧
  c.request_overhead_penalty_distribution_factor ≤ 1 ∧
  0 ≤ c.max_penalty_cap_factor

instance (c : Config) : Decidable c.Valid := by
  unfold Config.Valid; infer_instance

/-- Construction of the limiter state (`__init__`, lines 63-93):
derived parameters plus the empty window. -/
def LoadLimiter.ofConfig (c : Config) : LoadLimiter :=
  let overstep0 : ℤ := pytrunc (c.maxload * c.penalty_factor)
  let overstep : ℤ := if overstep0 ≤ 0 then 0 else overstep0
  let s0 : ℤ := ratCeil ((c.period : ℚ) * c.fragmentation)
  let step : ℤ := if s0 ≤ 1 then 1 else s0
  let nmb : ℤ := ratCeil ((c.period : ℚ) / (step : ℚ))
  { params :=
      { maxload := c.maxload
        period := (c.period : ℚ)
        step_period := step
        num_max_buckets := nmb
        overstep_penalty := overstep
        max_cap := c.maxload * (1 + c.max_penalty_cap_factor)
        compute_tta := c.compute_tta
        penalty_distribution_factor := c.penalty_distribution_factor
        request_overhead_penalty_factor := c.request_overhead_penalty_factor
        request_overhead_penalty_distribution_factor :=
          c.request_overhead_penalty_distribution_factor }
    queue := []
    window_total := 0
    was_over := false }

/-- `_correct_drifting_descending` (lines 185-189): clamp a negative
running total at 0. -/
def correct_drifting_descending (wt : ℚ) : ℚ :=
  if wt < 0 then 0 else wt

/-- The `while True` eviction loop of `_rotate_window_to_current_time`
(lines 176-183): drop leading buckets older than `remove_before`,
subtracting each dropped load from the running total (clamped at 0). -/
def evict (remove_before : ℚ) : List (ℤ × ℚ) → ℚ → List (ℤ × ℚ) × ℚ
  | [], wt => ([], wt)
  | (s, l) :: rest, wt =>
    if (s : ℚ) < remove_before then
      evict remove_before rest (correct_drifting_descending (wt - l))
    else ((s, l) :: rest, wt)

/-- The bucket slot start used by the advance routine:
`int(int(t / step_period) * step_period)`. -/
def rotate_t_start (step_period : ℤ) (t : ℚ) : ℤ :=
  pytrunc (t / (step_period : ℚ)) * step_period

/-- `_rotate_window_to_current_time` (lines 166-183).  Note that the
eviction loop runs only when a new bucket is appended. -/
def LoadLimiter.rotate_window_to_current_time (L : LoadLimiter) (t : ℚ) : LoadLimiter :=
  let t_start := rotate_t_start L.step_period t
  if L.queue.getLast?.map Prod.fst = some t_start then L
  else
    let r := evict (t - L.period) (L.queue ++ [(t_start, 0)]) L.window_total
    { L with queue := r.1, window_total := r.2 }

/-- `_correct_driftin_ascending` (lines 191-199): recompute the total
from the buckets when it drifted by more than 0.001. -/
def LoadLimiter.correct_driftin_ascending (L : LoadLimiter) : LoadLimiter :=
  let retot := (L.queue.map Prod.snd).sum
  if 1/1000 < |retot - L.window_total| then { L with window_total := retot } else L

/-- The loop body of `_remove_from_oldest` (lines 316-328), iterating
over the buckets from the left.  Returns the new queue, the amount that
could not be removed, and the new running total. -/
def remove_from_oldest : List (ℤ × ℚ) → ℚ → ℚ → List (ℤ × ℚ) × ℚ × ℚ
  | [], amount, wt => ([], amount, wt)
  | (s, l) :: rest, amount, wt =>
    let step : ℚ × ℚ × ℚ :=
      if 0 < l then
        let to_sub := min l amount
        (l - to_sub, amount - to_sub, wt - to_sub)
      else (l, amount, wt)
    if step.2.1 ≤ 0 then ((s, step.1) :: rest, step.2.1, step.2.2)
    else
      let r := remove_from_oldest rest step.2.1 step.2.2
      ((s, step.1) :: r.1, r.2.1, r.2.2)

/-- `_remove_from_oldest` acting on the limiter state. -/
def LoadLimiter.remove_from_oldest_s (L : LoadLimiter) (amount : ℚ) : LoadLimiter :=
  let r := remove_from_oldest L.queue amount L.window_total
  { L with queue := r.1, window_total := r.2.2 }

/-- The `over_max_cap` check-and-trim that follows mutations
(lines 226-228, 244-246, 374-376). -/
def LoadLimiter.cap_excess (L : LoadLimiter) : LoadLimiter :=
  if 0 < L.window_total - L.max_cap then
    L.remove_from_oldest_s (L.window_total - L.max_cap)
  else L

/-- One iteration (index `ix`) of the distribution loop of
`_distribute_penalty` (lines 349-372).  `queue[-(ix+1)]` is position
`n - ix - 1`; `queue.insert(-ix, b)` inserts before position `n - ix`;
a freshly created bucket immediately receives `afb`. -/
def penalty_step (step_period last_start : ℤ) (afb : ℚ)
    (q : List (ℤ × ℚ)) (ix : ℕ) : List (ℤ × ℚ) :=
  let expected : ℤ := last_start - (ix : ℤ) * step_period
  let n := q.length
  if n ≤ ix then (expected, afb) :: q
  else
    let b := q.getD (n - ix - 1) (0, 0)
    if b.1 < expected then
      q.take (n - ix) ++ (expected, afb) :: q.drop (n - ix)
    else
      q.take (n - ix - 1) ++ (b.1, b.2 + afb) :: q.drop (n - ix)

/-- `_distribute_penalty` (lines 330-376). -/
def LoadLimiter.distribute_penalty (L : LoadLimiter) (amount distribution_factor : ℚ) :
    LoadLimiter :=
  if L.queue.length < 1 then L
  else if amount ≤ 0 then L
  else
    let num0 : ℤ := pytrunc ((L.num_max_buckets : ℚ) * distribution_factor)
    let afb0 : ℚ := if 1 < num0 then amount / (num0 : ℚ) else 0
    let num : ℕ := if num0 ≤ 1 ∨ afb0 ≤ 1 then 1 else num0.toNat
    let afb : ℚ := if num0 ≤ 1 ∨ afb0 ≤ 1 then amount else afb0
    let last_start : ℤ := (L.queue.getLast?.map Prod.fst).getD 0
    let q := (List.range num).foldl (penalty_step L.step_period last_start afb) L.queue
    LoadLimiter.cap_excess
      { L with queue := q, window_total := L.window_total + amount }

/-- `_submit_probe` (lines 201-214): advance the window, then test
`window_total + load > maxload`.  Returns the advanced state and the
probe verdict. -/
def LoadLimiter.submit_probe (L : LoadLimiter) (t load : ℚ) : LoadLimiter × Bool :=
  let L1 := L.rotate_window_to_current_time t
  (L1, decide (L1.window_total + load ≤ L1.maxload))

/-- Add `load` to the last bucket of the queue (`entry = self.queue[-1];
entry[1] += load`).  The empty case is unreachable in the source (the
probe has just appended a bucket). -/
def add_to_last (load : ℚ) : List (ℤ × ℚ) → List (ℤ × ℚ)
  | [] => []
  | [(s, l)] => [(s, l + load)]
  | b :: rest => b :: add_to_last load rest

/-- `_submit_accept` (lines 216-236). -/
def LoadLimiter.submit_accept (L : LoadLimiter) (load : ℚ) : LoadLimiter × SubmitResult :=
  let L1 := { L with
    was_over := false
    window_total := L.window_total + load
    queue := add_to_last load L.queue }
  (L1.cap_excess, ⟨true, none⟩)

/-- The TTA accumulation loop of `_submit_reject` (lines 283-288):
walk the buckets from the oldest, accumulating load into `acc`, and
return the start of the first bucket at which `acc` reaches `to_free`. -/
def tta_walk : List (ℤ × ℚ) → ℚ → ℚ → Option ℤ
  | [], _, _ => none
  | (s, l) :: rest, acc, to_free =>
    if to_free ≤ acc + l then some s
    else tta_walk rest (acc + l) to_free

/-- The TTA block of `_submit_reject` (lines 264-297), evaluated on the
state as it stands after the reject bookkeeping. -/
def LoadLimiter.compute_response_tta (L : LoadLimiter) (t load : ℚ) : Option ℚ :=
  if L.maxload < load then none
  else
    let to_free : ℚ :=
      if L.maxload < L.window_total then load + (L.window_total - L.maxload)
      else load - (L.maxload - L.window_total)
    if to_free ≤ 0 then some 1
    else
      match tta_walk L.queue 0 to_free with
      | none => none
      | some s => some ((s : ℚ) + L.period - t)

/-- `_submit_reject` (lines 238-306). -/
def LoadLimiter.submit_reject (L : LoadLimiter) (t load : ℚ) : LoadLimiter × SubmitResult :=
  let L1 := L.cap_excess
  let L2 :=
    if L1.was_over then
      if 0 < L1.params.request_overhead_penalty_factor then
        if 0 < load * L1.params.request_overhead_penalty_factor then
          L1.distribute_penalty (load * L1.params.request_overhead_penalty_factor)
            L1.params.request_overhead_penalty_distribution_factor
        else L1
      else L1
    else
      let La := L1.correct_driftin_ascending
      if 0 < La.overstep_penalty then
        La.distribute_penalty (La.overstep_penalty : ℚ) La.params.penalty_distribution_factor
      else La
  let L3 := { L2 with was_over := true }
  let tta := if L3.compute_tta then L3.compute_response_tta t load else none
  (L3, ⟨false, tta⟩)

/-- `_submit` / `submit` (lines 120-122, 308-314). -/
def LoadLimiter.submit (L : LoadLimiter) (t load : ℚ) : LoadLimiter × SubmitResult :=
  let pr := L.submit_probe t load
  if pr.2 then pr.1.submit_accept load else pr.1.submit_reject t load

/-- `distribute` (lines 128-131). -/
def LoadLimiter.distribute (L : LoadLimiter) (t amount : ℚ) : LoadLimiter :=
  (L.rotate_window_to_current_time t).distribute_penalty amount 1

/-- Probe phase of `CompositeLoadLimiter.submit` (lines 458-468): each
child is probed; a failing child receives its reject bookkeeping on the
spot.  Returns the per-child states with their probe flags, the
`all_accepted` flag, and `highest_wait_time`. -/
def probe_phase (t load : ℚ) : List LoadLimiter → List (LoadLimiter × Bool) × Bool × Option ℚ
  | [] => ([], true, none)
  | L :: rest =>
    let pr := L.submit_probe t load
    if pr.2 then
      let r := probe_phase t load rest
      ((pr.1, true) :: r.1, r.2.1, r.2.2)
    else
      let rej := pr.1.submit_reject t load
      let r := probe_phase t load rest
      ((rej.1, false) :: r.1, false,
        match rej.2.retry_in, r.2.2 with
        | none, m => m
        | some x, none => some x
        | some x, some y => some (max x y))

/-- `CompositeLoadLimiter.submit` (lines 450-479): probe all children,
then on unanimity commit the accept on every probed child; otherwise
leave the accepted children untouched. -/
def compositeSubmit (ls : List LoadLimiter) (t load : ℚ) : List LoadLimiter × SubmitResult :=
  let ph := probe_phase t load ls
  if ph.2.1 then
    (ph.1.map (fun p => if p.2 then (p.1.submit_accept load).1 else p.1), ⟨true, ph.2.2⟩)
  else
    (ph.1.map Prod.fst, ⟨false, ph.2.2⟩)

/-- States reachable from a freshly constructed limiter by public
operations whose load arguments are non-negative. -/
inductive Reachable (c : Config) : LoadLimiter → Prop where
  | init : c.Valid → Reachable c (LoadLimiter.ofConfig c)
  | submit {L : LoadLimiter} (t load : ℚ) : Reachable c L → 0 ≤ load →
      Reachable c (L.submit t load).1
  | distribute {L : LoadLimiter} (t amount : ℚ) : Reachable c L → 0 ≤ amount →
      Reachable c (L.distribute t amount)

/-- Sum of the bucket loads of a queue (`retot` of
`_correct_driftin_ascending`). -/
def qsum (q : List (ℤ × ℚ)) : ℚ := (q.map Prod.snd).sum

/-- All bucket loads of a queue are non-negative. -/
def loadsOK (q : List (ℤ × ℚ)) : Prop := ∀ b ∈ q, 0 ≤ b.2

/-- Bucket start times are non-decreasing from oldest to newest. -/
def startsMono (q : List (ℤ × ℚ)) : Prop :=
  q.Pairwise (fun a b => a.1 ≤ b.1)

/-- Static well-formedness of the limiter parameters; `__init__`
establishes all of it for every valid configuration. -/
def LoadLimiter.WFP (L : LoadLimiter) : Prop :=
  0 < L.params.maxload ∧ L.params.maxload ≤ L.params.max_cap ∧
  0 < L.params.step_period ∧ (L.params.step_period : ℚ) ≤ L.params.period

/-- The windowed-accounting invariant: well-formed parameters,
non-negative bucket loads, a drift-free running total, and the
max-cap ceiling. -/
def LoadLimiter.Inv (L : LoadLimiter) : Prop :=
  L.WFP ∧ loadsOK L.queue ∧ L.window_total = qsum L.queue ∧
  L.window_total ≤ L.params.max_cap

/-- Reference TTA walk, following the specification text: walk the
buckets from oldest to newest and return the start of the first bucket
whose inclusion makes the accumulated load reach what must be freed
(here tracked as the amount still needed). -/
def tta_reference_walk : List (ℤ × ℚ) → ℚ → Option ℤ
  | [], _ => none
  | (s, l) :: rest, need =>
    if need ≤ l then some s else tta_reference_walk rest (need - l)

/-- Reference TTA estimate, written from the specification's §4.4
description rather than from the code. -/
def tta_reference (q : List (ℤ × ℚ)) (wt maxload per t load : ℚ) : Option ℚ :=
  let to_free : ℚ :=
    if maxload < wt then load + (wt - maxload) else load - (maxload - wt)
  if to_free ≤ 0 then some 1
  else (tta_reference_walk q to_free).map (fun s : ℤ => (s : ℚ) + per - t)

/-- Load of the newest bucket (0 for an empty window). -/
def last_load (L : LoadLimiter) : ℚ := ((L.queue.getLast?).map Prod.snd).getD 0

/-- A default limiter (used only as the default of `List.getD`). -/
def limiter0 : LoadLimiter := LoadLimiter.ofConfig {}

/-- Configurations used by concrete witnesses and counterexamples. -/
def cfgEntry : Config :=
  { maxload := 10, period := 60, fragmentation := 1/20, penalty_factor := 1/2 }

def cfgOverhead : Config :=
  { maxload := 10, period := 60, fragmentation := 1/20, request_overhead_penalty_factor := 2, max_penalty_cap_factor := 10 }

def cfgSlots : Config := { maxload := 60, period := 60, fragmentation := 1/20 }

def cfgTTA : Config :=
  { maxload := 100, period := 100, fragmentation := 1/20, request_overhead_penalty_factor := 2, request_overhead_penalty_distribution_factor := 1/10, max_penalty_cap_factor := 10 }

def cfgWide : Config := { maxload := 20, period := 4 }

/-! ### Lemmas -/

example :
    ((LoadLimiter.ofConfig { maxload := 10, period := 2 }).submit 0 3).2.accepted = true :=
  of_decide_eq_true (by with_unfolding_all rfl)

example :
    (((LoadLimiter.ofConfig { maxload := 10, period := 2 }).submit 0 10).1.submit 0 1).2 =
      ⟨false, some 2⟩ :=
  of_decide_eq_true (by with_unfolding_all rfl)

theorem remove_from_oldest_s_params (L : LoadLimiter) (a : ℚ) :
    (L.remove_from_oldest_s a).params = L.params := rfl

theorem cap_excess_params (L : LoadLimiter) : L.cap_excess.params = L.params := by
  unfold LoadLimiter.cap_excess
  split <;> rfl

theorem rotate_params (L : LoadLimiter) (t : ℚ) :
    (L.rotate_window_to_current_time t).params = L.params := by
  unfold LoadLimiter.rotate_window_to_current_time
  dsimp only
  split <;> rfl

theorem rotate_was_over (L : LoadLimiter) (t : ℚ) :
    (L.rotate_window_to_current_time t).was_over = L.was_over := by
  unfold LoadLimiter.rotate_window_to_current_time
  dsimp only
  split <;> rfl

theorem correct_driftin_ascending_params (L : LoadLimiter) :
    L.correct_driftin_ascending.params = L.params := by
  unfold LoadLimiter.correct_driftin_ascending
  dsimp only
  split <;> rfl

theorem correct_driftin_ascending_queue (L : LoadLimiter) :
    L.correct_driftin_ascending.queue = L.queue := by
  unfold LoadLimiter.correct_driftin_ascending
  dsimp only
  split <;> rfl

theorem correct_driftin_ascending_was_over (L : LoadLimiter) :
    L.correct_driftin_ascending.was_over = L.was_over := by
  unfold LoadLimiter.correct_driftin_ascending
  dsimp only
  split <;> rfl

theorem distribute_penalty_params (L : LoadLimiter) (a df : ℚ) :
    (L.distribute_penalty a df).params = L.params := by
  unfold LoadLimiter.distribute_penalty
  split
  · rfl
  · split
    · rfl
    · rw [cap_excess_params]

theorem submit_probe_params (L : LoadLimiter) (t load : ℚ) :
    (L.submit_probe t load).1.params = L.params := by
  unfold LoadLimiter.submit_probe
  exact rotate_params L t

theorem submit_accept_params (L : LoadLimiter) (load : ℚ) :
    (L.submit_accept load).1.params = L.params := by
  unfold LoadLimiter.submit_accept
  rw [cap_excess_params]

theorem submit_reject_params (L : LoadLimiter) (t load : ℚ) :
    (L.submit_reject t load).1.params = L.params := by
  unfold LoadLimiter.submit_reject
  dsimp only
  split
  · split
    · split
      · rw [distribute_penalty_params, cap_excess_params]
      · rw [cap_excess_params]
    · rw [cap_excess_params]
  · split
    · rw [distribute_penalty_params, correct_driftin_ascending_params, cap_excess_params]
    · rw [correct_driftin_ascending_params, cap_excess_params]

theorem submit_params (L : LoadLimiter) (t load : ℚ) :
    ((L.submit t load).1).params = L.params := by
  unfold LoadLimiter.submit
  dsimp only
  split
  · rw [submit_accept_params, submit_probe_params]
  · rw [submit_reject_params, submit_probe_params]

theorem distribute_params (L : LoadLimiter) (t a : ℚ) :
    (L.distribute t a).params = L.params := by
  unfold LoadLimiter.distribute
  rw [distribute_penalty_params, rotate_params]

theorem pytrunc_eq_floor {q : ℚ} (h : 0 ≤ q) : pytrunc q = ⌊q⌋ := by
  unfold pytrunc
  rw [Rat.floor_def]
  exact Int.tdiv_eq_ediv (Rat.num_nonneg.mpr h) (Int.natCast_nonneg q.den)

theorem pytrunc_neg (q : ℚ) : pytrunc (-q) = -(pytrunc q) := by
  unfold pytrunc
  rw [Rat.neg_num, Int.neg_tdiv]
  rfl

theorem sub_one_lt_pytrunc (q : ℚ) : q - 1 < (pytrunc q : ℚ) := by
  rcases le_or_lt 0 q with h | h
  · rw [pytrunc_eq_floor h]
    exact Int.sub_one_lt_floor q
  · have h2 : pytrunc q = -(pytrunc (-q)) := by rw [pytrunc_neg, neg_neg]
    have h3 : pytrunc (-q) = ⌊-q⌋ := pytrunc_eq_floor (by linarith)
    have h4 : ((⌊-q⌋ : ℤ) : ℚ) ≤ -q := Int.floor_le (-q)
    rw [h2, h3]
    push_cast
    linarith

theorem rotate_t_start_gt (sp : ℤ) (t : ℚ) (h1 : 0 < sp) :
    t - (sp : ℚ) < ((rotate_t_start sp t : ℤ) : ℚ) := by
  unfold rotate_t_start
  have h2 : (0 : ℚ) < (sp : ℚ) := by exact_mod_cast h1
  have h3 := sub_one_lt_pytrunc (t / (sp : ℚ))
  have h4 : (t / (sp : ℚ) - 1) * (sp : ℚ) < (pytrunc (t / (sp : ℚ)) : ℚ) * (sp : ℚ) :=
    mul_lt_mul_of_pos_right h3 h2
  have h5 : (t / (sp : ℚ) - 1) * (sp : ℚ) = t - (sp : ℚ) := by
    field_simp
  push_cast
  linarith

theorem qsum_nil : qsum [] = 0 := rfl

theorem qsum_cons (b : ℤ × ℚ) (q : List (ℤ × ℚ)) : qsum (b :: q) = b.2 + qsum q := by
  unfold qsum
  simp

theorem qsum_append (q r : List (ℤ × ℚ)) : qsum (q ++ r) = qsum q + qsum r := by
  unfold qsum
  simp

theorem qsum_nonneg {q : List (ℤ × ℚ)} (h : loadsOK q) : 0 ≤ qsum q := by
  induction q with
  | nil => simp [qsum_nil]
  | cons b rest ih =>
    have hb : 0 ≤ b.2 := h b (List.mem_cons_self b rest)
    have hr : loadsOK rest := fun x hx => h x (List.mem_cons_of_mem b hx)
    rw [qsum_cons]
    exact add_nonneg hb (ih hr)

theorem correct_drifting_descending_of_nonneg {wt : ℚ} (h : 0 ≤ wt) :
    correct_drifting_descending wt = wt := by
  unfold correct_drifting_descending
  rw [if_neg (not_lt.mpr h)]

/-- The eviction loop keeps the total equal to the remaining bucket sum,
keeps loads non-negative, and never increases the total (under
non-negative loads and a drift-free total the descending clamp never
fires). -/
theorem evict_spec (rb : ℚ) :
    ∀ (q : List (ℤ × ℚ)) (wt : ℚ), loadsOK q → wt = qsum q →
      (evict rb q wt).2 = qsum (evict rb q wt).1 ∧ loadsOK (evict rb q wt).1 ∧
        (evict rb q wt).2 ≤ wt
  | [], wt, _, hs => by
    unfold evict
    exact ⟨by simpa [qsum_nil] using hs, fun b hb => absurd hb (List.not_mem_nil b), le_refl wt⟩
  | (s, l) :: rest, wt, hl, hs => by
    have hl0 : 0 ≤ l := hl (s, l) (List.mem_cons_self _ _)
    have hlr : loadsOK rest := fun x hx => hl x (List.mem_cons_of_mem _ hx)
    have hsr : wt - l = qsum rest := by rw [hs, qsum_cons]; ring
    unfold evict
    split
    · have hnn : 0 ≤ wt - l := by
        rw [hsr]; exact qsum_nonneg hlr
      rw [correct_drifting_descending_of_nonneg hnn]
      have ih := evict_spec rb rest (wt - l) hlr hsr
      exact ⟨ih.1, ih.2.1, le_trans ih.2.2 (by linarith)⟩
    · exact ⟨hs, hl, le_refl wt⟩

/-- If the queue ends with a bucket that is not older than the cutoff,
the eviction loop cannot empty it. -/
theorem evict_ne_nil (rb : ℚ) (e : ℤ × ℚ) (he : ¬ ((e.1 : ℚ) < rb)) :
    ∀ (q₀ : List (ℤ × ℚ)) (wt : ℚ), (evict rb (q₀ ++ [e]) wt).1 ≠ []
  | [], wt => by
    obtain ⟨s, l⟩ := e
    dsimp only at he
    rw [List.nil_append]
    unfold evict
    rw [if_neg he]
    simp
  | (s, l) :: q₀, wt => by
    rw [List.cons_append]
    unfold evict
    split
    · exact evict_ne_nil rb e he q₀ _
    · simp

/-- On a start-sorted queue every bucket the eviction loop keeps is at
least as recent as the cutoff. -/
theorem evict_all_ge (rb : ℚ) :
    ∀ (q : List (ℤ × ℚ)) (wt : ℚ), startsMono q →
      ∀ b ∈ (evict rb q wt).1, ¬ ((b.1 : ℚ) < rb)
  | [], wt, _ => by
    unfold evict
    intro b hb
    exact absurd hb (List.not_mem_nil b)
  | (s, l) :: rest, wt, hm => by
    unfold evict
    split
    · exact evict_all_ge rb rest _ ((List.pairwise_cons.mp hm).2)
    · intro b hb
      rcases List.mem_cons.mp hb with h | h
      · subst h
        assumption
      · have hle : s ≤ b.1 := (List.pairwise_cons.mp hm).1 b h
        have hle2 : (s : ℚ) ≤ (b.1 : ℚ) := by exact_mod_cast hle
        intro hcon
        exact (by assumption : ¬ ((s : ℚ) < rb)) (lt_of_le_of_lt hle2 hcon)

/-- The advance routine preserves the windowed-accounting invariant. -/
theorem rotate_inv {L : LoadLimiter} (t : ℚ) (h : L.Inv) :
    (L.rotate_window_to_current_time t).Inv := by
  obtain ⟨hw, hl, hs, hc⟩ := h
  unfold LoadLimiter.rotate_window_to_current_time
  dsimp only
  split
  · exact ⟨hw, hl, hs, hc⟩
  · have hl2 : loadsOK (L.queue ++ [(rotate_t_start L.params.step_period t, 0)]) := by
      intro b hb
      rcases List.mem_append.mp hb with h1 | h1
      · exact hl b h1
      · have h2 := List.mem_singleton.mp h1
        rw [h2]
    have hs2 : L.window_total =
        qsum (L.queue ++ [(rotate_t_start L.params.step_period t, 0)]) := by
      rw [qsum_append, qsum_cons, qsum_nil, hs]
      ring
    have hes := evict_spec (t - L.params.period) _ _ hl2 hs2
    exact ⟨hw, hes.2.1, hes.1, le_trans hes.2.2 hc⟩

/-- The advance routine never increases the running total (given
non-negative loads and a drift-free total). -/
theorem rotate_wt_le {L : LoadLimiter} (t : ℚ) (hl : loadsOK L.queue)
    (hs : L.window_total = qsum L.queue) :
    (L.rotate_window_to_current_time t).window_total ≤ L.window_total := by
  unfold LoadLimiter.rotate_window_to_current_time
  dsimp only
  split
  · exact le_refl _
  · have hl2 : loadsOK (L.queue ++ [(rotate_t_start L.params.step_period t, 0)]) := by
      intro b hb
      rcases List.mem_append.mp hb with h1 | h1
      · exact hl b h1
      · have h2 := List.mem_singleton.mp h1
        rw [h2]
    have hs2 : L.window_total =
        qsum (L.queue ++ [(rotate_t_start L.params.step_period t, 0)]) := by
      rw [qsum_append, qsum_cons, qsum_nil, hs]
      ring
    exact (evict_spec (t - L.params.period) _ _ hl2 hs2).2.2

/-- The advance routine always leaves a non-empty window: the freshly
appended bucket cannot itself be evicted because its slot start lies
within one step of `t` and the step never exceeds the period. -/
theorem rotate_queue_ne_nil {L : LoadLimiter} (t : ℚ)
    (h1 : 0 < L.params.step_period) (h2 : (L.params.step_period : ℚ) ≤ L.params.period) :
    (L.rotate_window_to_current_time t).queue ≠ [] := by
  unfold LoadLimiter.rotate_window_to_current_time
  dsimp only
  split
  · rename_i hsome
    intro hcon
    rw [hcon] at hsome
    simp at hsome
  · apply evict_ne_nil
    have h3 := rotate_t_start_gt L.params.step_period t h1
    intro hcon
    dsimp only at hcon
    linarith

/-- Full characterisation of `_remove_from_oldest`: loads stay
non-negative, the unremoved remainder is non-negative, total and bucket
sum both drop by the amount actually removed, and when the buckets hold
enough load the removal is complete. -/
theorem remove_from_oldest_spec :
    ∀ (q : List (ℤ × ℚ)) (a wt : ℚ), loadsOK q → 0 ≤ a →
      loadsOK (remove_from_oldest q a wt).1 ∧
      0 ≤ (remove_from_oldest q a wt).2.1 ∧
      (remove_from_oldest q a wt).2.2 = wt - (a - (remove_from_oldest q a wt).2.1) ∧
      qsum (remove_from_oldest q a wt).1 = qsum q - (a - (remove_from_oldest q a wt).2.1) ∧
      (a ≤ qsum q → (remove_from_oldest q a wt).2.1 = 0)
  | [], a, wt, _, ha => by
    unfold remove_from_oldest
    refine ⟨fun b hb => absurd hb (List.not_mem_nil b), ha, by ring, ?_, ?_⟩
    · rw [qsum_nil]; ring
    · intro hle
      rw [qsum_nil] at hle
      linarith
  | (s, l) :: rest, a, wt, hl, ha => by
    have hl0 : 0 ≤ l := hl _ (List.mem_cons_self _ _)
    have hlr : loadsOK rest := fun x hx => hl x (List.mem_cons_of_mem _ hx)
    unfold remove_from_oldest
    by_cases hpos : 0 < l
    · simp only [if_pos hpos]
      by_cases hbr : a - min l a ≤ 0
      · simp only [if_pos hbr]
        have hminr : min l a ≤ a := min_le_right l a
        have hmin : min l a = a := le_antisymm hminr (by linarith)
        have hminl : a ≤ l := by
          have := min_le_left l a
          rw [hmin] at this
          exact this
        refine ⟨?_, by rw [hmin]; linarith, by rw [hmin]; ring, ?_, fun _ => by rw [hmin]; ring⟩
        · intro b hb
          rcases List.mem_cons.mp hb with h1 | h1
          · rw [h1]
            dsimp only
            rw [hmin]
            linarith
          · exact hlr b h1
        · rw [qsum_cons, qsum_cons, hmin]
          dsimp only
          ring
      · simp only [if_neg hbr]
        have hmin : min l a = l := by
          rcases le_total l a with h1 | h1
          · exact min_eq_left h1
          · exfalso
            rw [min_eq_right h1] at hbr
            exact hbr (by linarith)
        rw [hmin]
        have har : 0 ≤ a - l := by
          rw [hmin] at hbr
          linarith
        have ih := remove_from_oldest_spec rest (a - l) (wt - l) hlr har
        refine ⟨?_, ih.2.1, ?_, ?_, ?_⟩
        · intro b hb
          rcases List.mem_cons.mp hb with h1 | h1
          · rw [h1]
            dsimp only
            linarith
          · exact ih.1 b h1
        · rw [ih.2.2.1]
          ring
        · rw [qsum_cons, qsum_cons, ih.2.2.2.1]
          dsimp only
          ring
        · intro hle
          rw [qsum_cons] at hle
          exact ih.2.2.2.2 (by linarith)
    · simp only [if_neg hpos]
      by_cases hbr : a ≤ 0
      · simp only [if_pos hbr]
        have ha0 : a = 0 := le_antisymm hbr ha
        refine ⟨hl, ha, by rw [ha0]; ring, by rw [ha0]; ring, fun _ => ha0⟩
      · simp only [if_neg hbr]
        have ih := remove_from_oldest_spec rest a wt hlr ha
        refine ⟨?_, ih.2.1, ih.2.2.1, ?_, ?_⟩
        · intro b hb
          rcases List.mem_cons.mp hb with h1 | h1
          · rw [h1]
            exact hl0
          · exact ih.1 b h1
        · rw [qsum_cons, qsum_cons, ih.2.2.2.1]
          ring
        · intro hle
          rw [qsum_cons] at hle
          have : a ≤ qsum rest := by linarith
          exact ih.2.2.2.2 this

/-- When the buckets hold at least `a`, `_remove_from_oldest` removes
exactly `a` from the total, keeping loads non-negative and drift-free. -/
theorem remove_from_oldest_s_spec {L : LoadLimiter} (a : ℚ) (hl : loadsOK L.queue)
    (hs : L.window_total = qsum L.queue) (ha : 0 ≤ a) (hle : a ≤ L.window_total) :
    (L.remove_from_oldest_s a).window_total = L.window_total - a ∧
    loadsOK (L.remove_from_oldest_s a).queue ∧
    (L.remove_from_oldest_s a).window_total = qsum (L.remove_from_oldest_s a).queue := by
  have hspec := remove_from_oldest_spec L.queue a L.window_total hl ha
  have hzero : (remove_from_oldest L.queue a L.window_total).2.1 = 0 :=
    hspec.2.2.2.2 (by rw [← hs]; exact hle)
  unfold LoadLimiter.remove_from_oldest_s
  dsimp only
  refine ⟨?_, hspec.1, ?_⟩
  · rw [hspec.2.2.1, hzero]
    ring
  · rw [hspec.2.2.1, hspec.2.2.2.1, hzero, hs]

/-- The max-cap trim clamps the total to `min window_total max_cap`
(given non-negative loads and a drift-free total). -/
theorem cap_excess_spec {L : LoadLimiter} (hl : loadsOK L.queue)
    (hs : L.window_total = qsum L.queue) (hc : 0 ≤ L.params.max_cap) :
    (L.cap_excess).window_total = min L.window_total L.params.max_cap ∧
    loadsOK (L.cap_excess).queue ∧
    (L.cap_excess).window_total = qsum (L.cap_excess).queue := by
  unfold LoadLimiter.cap_excess
  split
  · rename_i hover
    have hspec := remove_from_oldest_s_spec (L.window_total - L.params.max_cap) hl hs
      (by linarith) (by linarith)
    refine ⟨?_, hspec.2.1, hspec.2.2⟩
    rw [hspec.1, min_eq_right (by linarith)]
    ring
  · rename_i hover
    exact ⟨by rw [min_eq_left (by linarith)], hl, hs⟩

/-- When the total is within the cap the trim is the identity. -/
theorem cap_excess_noop {L : LoadLimiter} (h : L.window_total ≤ L.params.max_cap) :
    L.cap_excess = L := by
  unfold LoadLimiter.cap_excess
  rw [if_neg (by linarith)]

theorem qsum_insert_mid (q : List (ℤ × ℚ)) (m : ℕ) (x : ℤ × ℚ) :
    qsum (q.take m ++ x :: q.drop m) = qsum q + x.2 := by
  rw [qsum_append, qsum_cons]
  have h : qsum (q.take m) + qsum (q.drop m) = qsum q := by
    rw [← qsum_append, List.take_append_drop]
  linarith

theorem qsum_set_mid :
    ∀ (q : List (ℤ × ℚ)) (k : ℕ), k < q.length → ∀ (x : ℤ × ℚ),
      qsum (q.take k ++ x :: q.drop (k + 1)) = qsum q - (q.getD k (0, 0)).2 + x.2
  | [], k, hk, x => by simp at hk
  | b :: rest, 0, _, x => by
    simp only [List.take_zero, List.drop_succ_cons, List.drop_zero, List.nil_append,
      List.getD_cons_zero]
    rw [qsum_cons, qsum_cons]
    ring
  | b :: rest, k + 1, hk, x => by
    simp only [List.take_succ_cons, List.drop_succ_cons, List.cons_append,
      List.getD_cons_succ]
    rw [qsum_cons, qsum_cons,
      qsum_set_mid rest k (by simpa using Nat.lt_of_succ_lt_succ hk) x]
    ring

theorem mem_take_cons_drop {q : List (ℤ × ℚ)} {m j : ℕ} {x b : ℤ × ℚ}
    (hb : b ∈ q.take m ++ x :: q.drop j) : b ∈ q ∨ b = x := by
  rcases List.mem_append.mp hb with h | h
  · exact Or.inl (List.mem_of_mem_take h)
  · rcases List.mem_cons.mp h with h | h
    · exact Or.inr h
    · exact Or.inl (List.mem_of_mem_drop h)

theorem penalty_step_qsum (sp ls : ℤ) (afb : ℚ) (q : List (ℤ × ℚ)) (ix : ℕ) :
    qsum (penalty_step sp ls afb q ix) = qsum q + afb := by
  unfold penalty_step
  dsimp only
  split
  · rw [qsum_cons]
    dsimp only
    ring
  · rename_i hlen
    have hix : ix < q.length := Nat.lt_of_not_le hlen
    split
    · exact qsum_insert_mid q (q.length - ix) _
    · have hk : q.length - ix - 1 < q.length := by omega
      generalize hgen : q.length - ix - 1 = k at hk ⊢
      have h2 : q.length - ix = k + 1 := by omega
      rw [h2, qsum_set_mid q k hk]
      dsimp only
      ring

theorem penalty_step_loads (sp ls : ℤ) {afb : ℚ} (ha : 0 ≤ afb) {q : List (ℤ × ℚ)}
    (hl : loadsOK q) (ix : ℕ) : loadsOK (penalty_step sp ls afb q ix) := by
  unfold penalty_step
  dsimp only
  split
  · intro b hb
    rcases List.mem_cons.mp hb with h | h
    · rw [h]
      exact ha
    · exact hl b h
  · rename_i hlen
    have hix : ix < q.length := Nat.lt_of_not_le hlen
    split
    · intro b hb
      rcases mem_take_cons_drop hb with h | h
      · exact hl b h
      · rw [h]
        exact ha
    · intro b hb
      rcases mem_take_cons_drop hb with h | h
      · exact hl b h
      · rw [h]
        dsimp only
        have hk : q.length - ix - 1 < q.length := by omega
        have hmem : 0 ≤ (q.getD (q.length - ix - 1) (0, 0)).2 := by
          rw [List.getD_eq_getElem?_getD, List.getElem?_eq_getElem hk]
          exact hl _ (List.getElem_mem hk)
        linarith

theorem penalty_loop_qsum (sp ls : ℤ) (afb : ℚ) (q : List (ℤ × ℚ)) :
    ∀ n : ℕ, qsum ((List.range n).foldl (penalty_step sp ls afb) q) = qsum q + n * afb := by
  intro n
  induction n with
  | zero =>
    rw [List.range_zero, List.foldl_nil]
    push_cast
    ring
  | succ k ih =>
    rw [List.range_succ, List.foldl_append, List.foldl_cons, List.foldl_nil,
      penalty_step_qsum, ih]
    push_cast
    ring

theorem penalty_loop_loads (sp ls : ℤ) {afb : ℚ} (ha : 0 ≤ afb) {q : List (ℤ × ℚ)}
    (hl : loadsOK q) :
    ∀ n : ℕ, loadsOK ((List.range n).foldl (penalty_step sp ls afb) q) := by
  intro n
  induction n with
  | zero =>
    rw [List.range_zero, List.foldl_nil]
    exact hl
  | succ k ih =>
    rw [List.range_succ, List.foldl_append, List.foldl_cons, List.foldl_nil]
    exact penalty_step_loads sp ls ha ih k

theorem cap_excess_mk_spec (p : Params) (q : List (ℤ × ℚ)) (wt : ℚ) (b : Bool)
    (hl : loadsOK q) (hs : wt = qsum q) (hc : 0 ≤ p.max_cap) :
    (LoadLimiter.cap_excess ⟨p, q, wt, b⟩).window_total = min wt p.max_cap ∧
    loadsOK (LoadLimiter.cap_excess ⟨p, q, wt, b⟩).queue ∧
    (LoadLimiter.cap_excess ⟨p, q, wt, b⟩).window_total =
      qsum (LoadLimiter.cap_excess ⟨p, q, wt, b⟩).queue :=
  cap_excess_spec (L := ⟨p, q, wt, b⟩) hl hs hc

theorem distribute_penalty_amount_eq {num0 : ℤ} {amount : ℚ} (h1 : 1 < num0) :
    ((num0.toNat : ℕ) : ℚ) * (amount / (num0 : ℚ)) = amount := by
  have h0 : ((num0.toNat : ℤ) : ℚ) = (num0 : ℚ) := by
    rw [Int.toNat_of_nonneg (by omega)]
  have h2 : (num0 : ℚ) ≠ 0 := by
    have h3 : (1 : ℚ) < (num0 : ℚ) := by exact_mod_cast h1
    linarith
  push_cast at h0 ⊢
  rw [h0]
  field_simp

/-- `_distribute_penalty` keeps loads non-negative and the total
drift-free, and the resulting total is the old one when the call is a
no-op, and otherwise exactly `min (window_total + amount) max_cap`:
the whole `amount` lands in the window before the max-cap trim. -/
theorem distribute_penalty_core_spec (p : Params) (q : List (ℤ × ℚ)) (wt : ℚ) (bo : Bool)
    (ls : ℤ) (n : ℕ) (afb amount : ℚ)
    (hl : loadsOK q) (hs : wt = qsum q) (hc : 0 ≤ p.max_cap)
    (hafb : 0 ≤ afb) (hna : (n : ℚ) * afb = amount) :
    loadsOK (LoadLimiter.cap_excess
      ⟨p, (List.range n).foldl (penalty_step p.step_period ls afb) q, wt + amount, bo⟩).queue ∧
    (LoadLimiter.cap_excess
      ⟨p, (List.range n).foldl (penalty_step p.step_period ls afb) q,
        wt + amount, bo⟩).window_total =
      qsum (LoadLimiter.cap_excess
        ⟨p, (List.range n).foldl (penalty_step p.step_period ls afb) q,
          wt + amount, bo⟩).queue ∧
    (LoadLimiter.cap_excess
      ⟨p, (List.range n).foldl (penalty_step p.step_period ls afb) q,
        wt + amount, bo⟩).window_total = min (wt + amount) p.max_cap := by
  have hql := penalty_loop_qsum p.step_period ls afb q n
  have hll := penalty_loop_loads p.step_period ls hafb hl n
  have hms : wt + amount = qsum ((List.range n).foldl (penalty_step p.step_period ls afb) q) := by
    rw [hql, hs]
    linarith [hna]
  have hcs := cap_excess_mk_spec p _ _ bo hll hms hc
  exact ⟨hcs.2.1, hcs.2.2, hcs.1⟩

theorem distribute_penalty_spec {L : LoadLimiter} (amount df : ℚ)
    (hl : loadsOK L.queue) (hs : L.window_total = qsum L.queue)
    (hc : 0 ≤ L.params.max_cap) :
    loadsOK (L.distribute_penalty amount df).queue ∧
    (L.distribute_penalty amount df).window_total =
      qsum (L.distribute_penalty amount df).queue ∧
    (L.distribute_penalty amount df).window_total =
      (if L.queue.length < 1 ∨ amount ≤ 0 then L.window_total
       else min (L.window_total + amount) L.params.max_cap) := by
  unfold LoadLimiter.distribute_penalty
  dsimp only
  split
  · rename_i h1
    exact ⟨hl, hs, by rw [if_pos (Or.inl h1)]⟩
  · split
    · rename_i h1 h2
      exact ⟨hl, hs, by rw [if_pos (Or.inr h2)]⟩
    · rename_i h1 h2
      rw [if_neg (show ¬ (L.queue.length < 1 ∨ amount ≤ 0) from fun hor => hor.elim h1 h2)]
      have hpos : (0 : ℚ) < amount := not_le.mp h2
      by_cases hn1 : pytrunc ((L.num_max_buckets : ℚ) * df) ≤ 1
      · simp only [if_neg (not_lt.mpr hn1), if_pos (Or.inl hn1)]
        have hcore := distribute_penalty_core_spec L.params L.queue L.window_total L.was_over
          ((L.queue.getLast?.map Prod.fst).getD 0) 1 amount amount hl hs hc
          (le_of_lt hpos) (by push_cast; ring)
        exact hcore
      · have hlt : 1 < pytrunc ((L.num_max_buckets : ℚ) * df) := not_le.mp hn1
        simp only [if_pos hlt]
        by_cases hafb : amount / ((pytrunc ((L.num_max_buckets : ℚ) * df) : ℤ) : ℚ) ≤ 1
        · simp only [if_pos (Or.inr hafb)]
          have hcore := distribute_penalty_core_spec L.params L.queue L.window_total L.was_over
            ((L.queue.getLast?.map Prod.fst).getD 0) 1 amount amount hl hs hc
            (le_of_lt hpos) (by push_cast; ring)
          exact hcore
        · simp only [if_neg (show ¬ (pytrunc ((L.num_max_buckets : ℚ) * df) ≤ 1 ∨
              amount / ((pytrunc ((L.num_max_buckets : ℚ) * df) : ℤ) : ℚ) ≤ 1) from
              fun hor => hor.elim hn1 hafb)]
          have hnn : (0 : ℚ) ≤ amount / ((pytrunc ((L.num_max_buckets : ℚ) * df) : ℤ) : ℚ) := by
            apply div_nonneg (le_of_lt hpos)
            have h3 : (1 : ℚ) < ((pytrunc ((L.num_max_buckets : ℚ) * df) : ℤ) : ℚ) := by
              exact_mod_cast hlt
            linarith
          have hcore := distribute_penalty_core_spec L.params L.queue L.window_total L.was_over
            ((L.queue.getLast?.map Prod.fst).getD 0)
            (pytrunc ((L.num_max_buckets : ℚ) * df)).toNat
            (amount / ((pytrunc ((L.num_max_buckets : ℚ) * df) : ℤ) : ℚ)) amount hl hs hc
            hnn (distribute_penalty_amount_eq hlt)
          exact hcore

theorem ratCeil_eq_ceil (q : ℚ) : ratCeil q = ⌈q⌉ := by
  unfold ratCeil
  rw [Int.fdiv_eq_ediv _ (Int.natCast_nonneg q.den)]
  have h2 : ⌊-q⌋ = (-q).num / ((-q).den : ℤ) := Rat.floor_def
  rw [Rat.neg_num, Rat.neg_den] at h2
  have h3 : ⌈q⌉ = -⌊-q⌋ := by
    rw [Int.floor_neg]
    ring
  rw [h3, h2]

theorem wfp_params {M L : LoadLimiter} (h : M.params = L.params) (hw : L.WFP) : M.WFP := by
  unfold LoadLimiter.WFP at hw ⊢
  rw [h]
  exact hw

theorem inv_set_was_over {X : LoadLimiter} (b : Bool) (h : X.Inv) :
    LoadLimiter.Inv ⟨X.params, X.queue, X.window_total, b⟩ :=
  ⟨h.1, h.2.1, h.2.2.1, h.2.2.2⟩

theorem correct_driftin_ascending_noop {L : LoadLimiter}
    (hs : L.window_total = qsum L.queue) : L.correct_driftin_ascending = L := by
  unfold LoadLimiter.correct_driftin_ascending
  dsimp only
  have h0 : (L.queue.map Prod.snd).sum = L.window_total := by
    rw [hs]
    rfl
  rw [if_neg]
  rw [h0, sub_self, abs_zero]
  norm_num

theorem add_to_last_zero : ∀ q : List (ℤ × ℚ), add_to_last 0 q = q
  | [] => rfl
  | [(s, l)] => by
    unfold add_to_last
    rw [add_zero]
  | (s, l) :: b :: rest => by
    have h1 : add_to_last 0 ((s, l) :: b :: rest) = (s, l) :: add_to_last 0 (b :: rest) := rfl
    rw [h1, add_to_last_zero (b :: rest)]

theorem add_to_last_qsum (x : ℚ) :
    ∀ q : List (ℤ × ℚ), q ≠ [] → qsum (add_to_last x q) = qsum q + x
  | [], h => absurd rfl h
  | [(s, l)], _ => by
    unfold add_to_last
    rw [qsum_cons, qsum_cons, qsum_nil]
    ring
  | (s, l) :: b :: rest, _ => by
    have h1 : add_to_last x ((s, l) :: b :: rest) = (s, l) :: add_to_last x (b :: rest) := rfl
    rw [h1, qsum_cons, qsum_cons, add_to_last_qsum x (b :: rest) (by simp)]
    ring

theorem add_to_last_loads {x : ℚ} (hx : 0 ≤ x) :
    ∀ q : List (ℤ × ℚ), loadsOK q → loadsOK (add_to_last x q)
  | [], _ => fun b hb => absurd hb (List.not_mem_nil b)
  | [(s, l)], hl => by
    unfold add_to_last
    intro b hb
    rcases List.mem_cons.mp hb with h | h
    · rw [h]
      dsimp only
      have := hl (s, l) (List.mem_cons_self _ _)
      dsimp only at this
      linarith
    · exact absurd h (List.not_mem_nil b)
  | (s, l) :: b2 :: rest, hl => by
    have h1 : add_to_last x ((s, l) :: b2 :: rest) = (s, l) :: add_to_last x (b2 :: rest) := rfl
    rw [h1]
    intro b hb
    rcases List.mem_cons.mp hb with h | h
    · rw [h]
      exact hl (s, l) (List.mem_cons_self _ _)
    · exact add_to_last_loads hx (b2 :: rest)
        (fun y hy => hl y (List.mem_cons_of_mem _ hy)) b h

theorem add_to_last_cons (x : ℚ) (b : ℤ × ℚ) (rest : List (ℤ × ℚ)) :
    ∃ cb ct, add_to_last x (b :: rest) = cb :: ct := by
  cases rest with
  | nil =>
    obtain ⟨s, l⟩ := b
    exact ⟨(s, l + x), [], rfl⟩
  | cons b2 r2 => exact ⟨b, add_to_last x (b2 :: r2), rfl⟩

theorem add_to_last_getLast (x : ℚ) :
    ∀ q : List (ℤ × ℚ),
      (add_to_last x q).getLast? = q.getLast?.map (fun b => (b.1, b.2 + x))
  | [] => rfl
  | [(s, l)] => rfl
  | (s, l) :: b :: rest => by
    have h1 : add_to_last x ((s, l) :: b :: rest) = (s, l) :: add_to_last x (b :: rest) := rfl
    obtain ⟨cb, ct, hshape⟩ := add_to_last_cons x b rest
    rw [h1, hshape, List.getLast?_cons_cons, ← hshape,
      add_to_last_getLast x (b :: rest), List.getLast?_cons_cons]

/-- When the accept path stays at or below the max cap (always the case
after a passing probe on a well-formed limiter), `_submit_accept` adds
the load to the last bucket and the total, clears `was_over`, and
returns acceptance with no TTA. -/
theorem submit_accept_spec {L : LoadLimiter} (load : ℚ)
    (hcap : L.window_total + load ≤ L.params.max_cap) :
    L.submit_accept load =
      (⟨L.params, add_to_last load L.queue, L.window_total + load, false⟩,
        ⟨true, none⟩) := by
  unfold LoadLimiter.submit_accept
  dsimp only
  rw [cap_excess_noop
    (L := ⟨L.params, add_to_last load L.queue, L.window_total + load, false⟩) hcap]

theorem submit_accept_inv {L : LoadLimiter} (load : ℚ) (hload : 0 ≤ load)
    (hne : L.queue ≠ []) (h : L.Inv) : ((L.submit_accept load).1).Inv := by
  obtain ⟨hw, hl, hs, hc⟩ := h
  have hc0 : 0 ≤ L.params.max_cap := le_trans (le_of_lt hw.1) hw.2.1
  unfold LoadLimiter.submit_accept
  dsimp only
  have hl2 : loadsOK (add_to_last load L.queue) := add_to_last_loads hload L.queue hl
  have hs2 : L.window_total + load = qsum (add_to_last load L.queue) := by
    rw [add_to_last_qsum load L.queue hne, hs]
  have hcs := cap_excess_mk_spec L.params (add_to_last load L.queue)
    (L.window_total + load) false hl2 hs2 hc0
  refine ⟨?_, hcs.2.1, hcs.2.2, ?_⟩
  · exact wfp_params (cap_excess_params _) hw
  · have hp := cap_excess_params
      (L := ⟨L.params, add_to_last load L.queue, L.window_total + load, false⟩)
    rw [hp, hcs.1]
    exact min_le_right _ _

theorem distribute_penalty_inv {L : LoadLimiter} (amount df : ℚ) (h : L.Inv) :
    (L.distribute_penalty amount df).Inv := by
  obtain ⟨hw, hl, hs, hc⟩ := h
  have hc0 : 0 ≤ L.params.max_cap := le_trans (le_of_lt hw.1) hw.2.1
  have hd := distribute_penalty_spec amount df hl hs hc0
  refine ⟨wfp_params (distribute_penalty_params L amount df) hw, hd.1, hd.2.1, ?_⟩
  rw [distribute_penalty_params, hd.2.2]
  split
  · exact hc
  · exact min_le_right _ _

theorem submit_reject_inv {L : LoadLimiter} (t load : ℚ) (h : L.Inv) :
    ((L.submit_reject t load).1).Inv := by
  have hc := h.2.2.2
  unfold LoadLimiter.submit_reject
  dsimp only
  rw [cap_excess_noop hc]
  split
  · split
    · split
      · exact inv_set_was_over true (distribute_penalty_inv _ _ h)
      · exact inv_set_was_over true h
    · exact inv_set_was_over true h
  · rw [correct_driftin_ascending_noop h.2.2.1]
    split
    · exact inv_set_was_over true (distribute_penalty_inv _ _ h)
    · exact inv_set_was_over true h

theorem submit_probe_fst (L : LoadLimiter) (t load : ℚ) :
    (L.submit_probe t load).1 = L.rotate_window_to_current_time t := rfl

theorem submit_inv {L : LoadLimiter} (t load : ℚ) (hload : 0 ≤ load) (h : L.Inv) :
    ((L.submit t load).1).Inv := by
  unfold LoadLimiter.submit
  dsimp only
  have hrot : (L.rotate_window_to_current_time t).Inv := rotate_inv t h
  split
  · rw [submit_probe_fst]
    exact submit_accept_inv load hload
      (rotate_queue_ne_nil t h.1.2.2.1 h.1.2.2.2) hrot
  · rw [submit_probe_fst]
    exact submit_reject_inv t load hrot

theorem distribute_inv {L : LoadLimiter} (t amount : ℚ) (h : L.Inv) :
    (L.distribute t amount).Inv := by
  unfold LoadLimiter.distribute
  exact distribute_penalty_inv _ _ (rotate_inv t h)

theorem ofConfig_inv {c : Config} (h : c.Valid) : (LoadLimiter.ofConfig c).Inv := by
  obtain ⟨h1, h2, h3, h4, h5, h6, h7, h8, h9, h10, h11⟩ := h
  unfold LoadLimiter.ofConfig
  dsimp only
  have hper : (1 : ℚ) ≤ (c.period : ℚ) := by
    have : (1 : ℤ) ≤ c.period := h2
    exact_mod_cast this
  refine ⟨⟨h1, ?_, ?_, ?_⟩, fun b hb => absurd hb (List.not_mem_nil b), rfl, ?_⟩
  · nlinarith [mul_nonneg (le_of_lt h1) h11]
  · split
    · norm_num
    · rename_i hs0
      dsimp only
      omega
  · split
    · rename_i hs0
      push_cast
      linarith
    · rename_i hs0
      rw [ratCeil_eq_ceil]
      dsimp only
      have hle : ((c.period : ℚ) * c.fragmentation) ≤ ((c.period : ℤ) : ℚ) := by
        nlinarith
      have hceil : ⌈(c.period : ℚ) * c.fragmentation⌉ ≤ c.period := Int.ceil_le.mpr hle
      exact_mod_cast hceil
  · nlinarith [mul_nonneg (le_of_lt h1) h11]

/-- Every reachable state satisfies the windowed-accounting invariant. -/
theorem reachable_inv {c : Config} {L : LoadLimiter} (h : Reachable c L) : L.Inv := by
  induction h with
  | init hv => exact ofConfig_inv hv
  | submit t load hr hload ih => exact submit_inv t load hload ih
  | distribute t amount hr hamount ih => exact distribute_inv t amount ih

theorem submit_accept_snd (L : LoadLimiter) (load : ℚ) :
    (L.submit_accept load).2 = ⟨true, none⟩ := rfl

theorem submit_reject_snd (M : LoadLimiter) (t load : ℚ) :
    (M.submit_reject t load).2 =
      ⟨false, if ((M.submit_reject t load).1).compute_tta then
        ((M.submit_reject t load).1).compute_response_tta t load else none⟩ := by
  unfold LoadLimiter.submit_reject
  dsimp only

theorem compute_response_tta_none {M : LoadLimiter} (t load : ℚ)
    (h : M.maxload < load) : M.compute_response_tta t load = none := by
  unfold LoadLimiter.compute_response_tta
  rw [if_pos h]

/-- A rejected submit is the reject path applied to the advanced state. -/
theorem submit_of_rejected {L : LoadLimiter} {t load : ℚ}
    (h : (L.submit t load).2.accepted = false) :
    L.submit t load = (L.rotate_window_to_current_time t).submit_reject t load := by
  unfold LoadLimiter.submit at h ⊢
  dsimp only at h ⊢
  by_cases hp : (L.submit_probe t load).2 = true
  · rw [hp, if_pos rfl, submit_accept_snd] at h
    simp at h
  · have hp2 : (L.submit_probe t load).2 = false := by
      cases hpe : (L.submit_probe t load).2
      · rfl
      · exact absurd hpe hp
    rw [hp2, if_neg Bool.false_ne_true, submit_probe_fst]

/-- An accepted submit is the accept path applied to the advanced state. -/
theorem submit_of_accepted {L : LoadLimiter} {t load : ℚ}
    (h : (L.submit t load).2.accepted = true) :
    L.submit t load = (L.rotate_window_to_current_time t).submit_accept load := by
  unfold LoadLimiter.submit at h ⊢
  dsimp only at h ⊢
  by_cases hp : (L.submit_probe t load).2 = true
  · rw [hp, if_pos rfl, submit_probe_fst]
  · have hp2 : (L.submit_probe t load).2 = false := by
      cases hpe : (L.submit_probe t load).2
      · rfl
      · exact absurd hpe hp
    rw [hp2, if_neg Bool.false_ne_true, submit_reject_snd] at h
    simp at h

/-- The probe verdict, as a proposition about the advanced state. -/
theorem submit_probe_verdict (L : LoadLimiter) (t load : ℚ) :
    (L.submit_probe t load).2 = true ↔
      (L.rotate_window_to_current_time t).window_total + load ≤
        (L.rotate_window_to_current_time t).maxload := by
  unfold LoadLimiter.submit_probe
  dsimp only
  exact decide_eq_true_iff

theorem reachable_params {c : Config} {L : LoadLimiter} (h : Reachable c L) :
    L.params = (LoadLimiter.ofConfig c).params := by
  induction h with
  | init hv => rfl
  | submit t load hr hload ih => rw [submit_params]; exact ih
  | distribute t a hr ha ih => rw [distribute_params]; exact ih

/-- With no penalties configured, the reject path only sets `was_over`:
queue and total stay exactly those of the advanced state. -/
theorem submit_reject_fst_no_penalty {M : LoadLimiter} (t load : ℚ)
    (hov : M.overstep_penalty ≤ 0) (hrf : M.params.request_overhead_penalty_factor ≤ 0)
    (hs : M.window_total = qsum M.queue) (hc : M.window_total ≤ M.max_cap) :
    (M.submit_reject t load).1 = ⟨M.params, M.queue, M.window_total, true⟩ := by
  unfold LoadLimiter.submit_reject
  dsimp only
  rw [cap_excess_noop hc]
  split
  · rw [if_neg (not_lt.mpr hrf)]
  · rw [correct_driftin_ascending_noop hs, if_neg (not_lt.mpr hov)]

/-- First reject of a burst with an entry penalty configured: the total
grows by exactly `overstep_penalty` and is then clamped at `max_cap`;
`was_over` is set. -/
theorem submit_reject_entry_penalty {M : LoadLimiter} (t load : ℚ)
    (hwo : M.was_over = false) (hov : 0 < M.overstep_penalty)
    (hne : M.queue ≠ []) (hl : loadsOK M.queue) (hs : M.window_total = qsum M.queue)
    (hc : M.window_total ≤ M.max_cap) (hc0 : 0 ≤ M.max_cap) :
    ((M.submit_reject t load).1).window_total =
      min (M.window_total + (M.overstep_penalty : ℚ)) M.max_cap ∧
    ((M.submit_reject t load).1).was_over = true := by
  unfold LoadLimiter.submit_reject
  dsimp only
  rw [cap_excess_noop hc, hwo, if_neg Bool.false_ne_true,
    correct_driftin_ascending_noop hs, if_pos hov]
  have hd := distribute_penalty_spec (L := M) ((M.overstep_penalty : ℚ))
    M.params.penalty_distribution_factor hl hs hc0
  have hnn : ¬ (M.queue.length < 1 ∨ ((M.overstep_penalty : ℤ) : ℚ) ≤ 0) := by
    intro hor
    rcases hor with h1 | h1
    · have := List.length_pos.mpr hne
      omega
    · have h2 : (0 : ℚ) < ((M.overstep_penalty : ℤ) : ℚ) := by exact_mod_cast hov
      linarith
  constructor
  · show (M.distribute_penalty ((M.overstep_penalty : ℚ))
      M.params.penalty_distribution_factor).window_total = _
    rw [hd.2.2, if_neg hnn]
  · rfl

/-- Continuing reject of a burst with an overhead penalty configured:
the total grows by exactly `load * request_overhead_penalty_factor`
and is then clamped at `max_cap`; `was_over` stays set. -/
theorem submit_reject_overhead_penalty {M : LoadLimiter} (t load : ℚ)
    (hwo : M.was_over = true) (hrf : 0 < M.params.request_overhead_penalty_factor)
    (hp : 0 < load * M.params.request_overhead_penalty_factor)
    (hne : M.queue ≠ []) (hl : loadsOK M.queue) (hs : M.window_total = qsum M.queue)
    (hc : M.window_total ≤ M.max_cap) (hc0 : 0 ≤ M.max_cap) :
    ((M.submit_reject t load).1).window_total =
      min (M.window_total + load * M.params.request_overhead_penalty_factor) M.max_cap ∧
    ((M.submit_reject t load).1).was_over = true := by
  unfold LoadLimiter.submit_reject
  dsimp only
  rw [cap_excess_noop hc, hwo, if_pos rfl, if_pos hrf, if_pos hp]
  have hd := distribute_penalty_spec (L := M)
    (load * M.params.request_overhead_penalty_factor)
    M.params.request_overhead_penalty_distribution_factor hl hs hc0
  have hnn : ¬ (M.queue.length < 1 ∨ load * M.params.request_overhead_penalty_factor ≤ 0) := by
    intro hor
    rcases hor with h1 | h1
    · have := List.length_pos.mpr hne
      omega
    · linarith
  constructor
  · show (M.distribute_penalty (load * M.params.request_overhead_penalty_factor)
      M.params.request_overhead_penalty_distribution_factor).window_total = _
    rw [hd.2.2, if_neg hnn]
  · rfl

theorem ofConfig_overstep_zero {c : Config} (hpf : c.penalty_factor = 0) :
    (LoadLimiter.ofConfig c).params.overstep_penalty = 0 := by
  unfold LoadLimiter.ofConfig
  dsimp only
  rw [hpf, mul_zero]
  have h0 : pytrunc 0 = 0 := rfl
  rw [h0, if_pos (le_refl (0 : ℤ))]

theorem ofConfig_overstep_floor {c : Config} (h1 : 0 < c.maxload)
    (h2 : 0 ≤ c.penalty_factor) :
    (LoadLimiter.ofConfig c).params.overstep_penalty =
      ⌊c.maxload * c.penalty_factor⌋ := by
  unfold LoadLimiter.ofConfig
  dsimp only
  have hnn : (0 : ℚ) ≤ c.maxload * c.penalty_factor := mul_nonneg (le_of_lt h1) h2
  rw [pytrunc_eq_floor hnn]
  split
  · rename_i hle
    have h3 : 0 ≤ ⌊c.maxload * c.penalty_factor⌋ := Int.floor_nonneg.mpr hnn
    omega
  · rfl

/-- Claim C7: on a limiter whose operations all received non-negative
loads, every reachable state keeps `window_total` at or below
`max_cap = maxload * (1 + max_penalty_cap_factor)` exactly (no ε is
needed over exact arithmetic), and every bucket load stays
non-negative (in particular the trim-from-oldest never drives a bucket
below zero). -/
theorem C7_max_cap_ceiling {c : Config} {L : LoadLimiter} (h : Reachable c L) :
    L.window_total ≤ c.maxload * (1 + c.max_penalty_cap_factor) ∧
    L.max_cap = c.maxload * (1 + c.max_penalty_cap_factor) ∧
    ∀ b ∈ L.queue, 0 ≤ b.2 := by
  have hinv := reachable_inv h
  have hp := reachable_params h
  have hmc : L.params.max_cap = c.maxload * (1 + c.max_penalty_cap_factor) := by
    rw [hp]
    rfl
  exact ⟨by rw [← hmc]; exact hinv.2.2.2, hmc, hinv.2.1⟩

theorem C7_max_cap_ceiling_witness :
    Reachable { maxload := 10, period := 2 }
      ((LoadLimiter.ofConfig { maxload := 10, period := 2 }).submit 0 3).1 ∧
    (((LoadLimiter.ofConfig { maxload := 10, period := 2 }).submit 0 3).1.window_total ≤
        (10 : ℚ) * (1 + 1/4) ∧
      ((LoadLimiter.ofConfig { maxload := 10, period := 2 }).submit 0 3).1.max_cap =
        (10 : ℚ) * (1 + 1/4) ∧
      ∀ b ∈ ((LoadLimiter.ofConfig { maxload := 10, period := 2 }).submit 0 3).1.queue,
        0 ≤ b.2) := by
  have hr : Reachable { maxload := 10, period := 2 }
      ((LoadLimiter.ofConfig { maxload := 10, period := 2 }).submit 0 3).1 :=
    Reachable.submit 0 3
      (Reachable.init (of_decide_eq_true (by with_unfolding_all rfl)))
      (by norm_num)
  exact ⟨hr, C7_max_cap_ceiling hr⟩

/-- Claim C8: in every reachable state of a limiter whose operations all
received non-negative loads, a submit with `load > maxload` is rejected
with a `null` retry estimate. -/
theorem C8_overload_rejected {c : Config} {L : LoadLimiter} (h : Reachable c L)
    (t load : ℚ) (hload : L.maxload < load) :
    (L.submit t load).2 = ⟨false, none⟩ := by
  have hinv := reachable_inv h
  have hrot := rotate_inv t hinv
  have hwt : 0 ≤ (L.rotate_window_to_current_time t).window_total := by
    rw [hrot.2.2.1]
    exact qsum_nonneg hrot.2.1
  have hml : (L.rotate_window_to_current_time t).maxload = L.maxload :=
    congrArg Params.maxload (rotate_params L t)
  have hcond : ¬ ((L.rotate_window_to_current_time t).window_total + load ≤
      (L.rotate_window_to_current_time t).maxload) := by
    rw [hml]
    push_neg
    linarith
  unfold LoadLimiter.submit
  dsimp only
  have hp2 : (L.submit_probe t load).2 = false := by
    cases hpe : (L.submit_probe t load).2
    · rfl
    · exact absurd ((submit_probe_verdict L t load).mp hpe) hcond
  rw [hp2, if_neg Bool.false_ne_true, submit_probe_fst, submit_reject_snd]
  have hm : (((L.rotate_window_to_current_time t).submit_reject t load).1).maxload < load := by
    have h3 := congrArg Params.maxload
      (submit_reject_params (L.rotate_window_to_current_time t) t load)
    have h4 : (((L.rotate_window_to_current_time t).submit_reject t load).1).maxload =
        L.maxload := h3.trans hml
    rw [h4]
    exact hload
  rw [compute_response_tta_none t load hm, ite_self]

theorem C8_overload_rejected_witness :
    Reachable { maxload := 10, period := 2 }
      (LoadLimiter.ofConfig { maxload := 10, period := 2 }) ∧
    (LoadLimiter.ofConfig { maxload := 10, period := 2 }).maxload < 11 ∧
    ((LoadLimiter.ofConfig { maxload := 10, period := 2 }).submit 0 11).2 =
      ⟨false, none⟩ := by
  have hr : Reachable { maxload := 10, period := 2 }
      (LoadLimiter.ofConfig { maxload := 10, period := 2 }) :=
    Reachable.init (of_decide_eq_true (by with_unfolding_all rfl))
  exact ⟨hr, of_decide_eq_true (by with_unfolding_all rfl),
    C8_overload_rejected hr 0 11 (of_decide_eq_true (by with_unfolding_all rfl))⟩

/-- Claim C5: with `penalty_factor = 0` and
`request_overhead_penalty_factor = 0`, a rejected submit changes neither
the buckets nor `window_total` beyond what the advance routine itself
did: the rejected load is never added anywhere, only `was_over` is
set. -/
theorem C5_rejection_neutrality {c : Config} {L : LoadLimiter} (h : Reachable c L)
    (hpf : c.penalty_factor = 0) (hrof : c.request_overhead_penalty_factor = 0)
    (t load : ℚ) (hrej : (L.submit t load).2.accepted = false) :
    (L.submit t load).1 =
      ⟨L.params, (L.rotate_window_to_current_time t).queue,
        (L.rotate_window_to_current_time t).window_total, true⟩ := by
  have hinv := reachable_inv h
  have hrot := rotate_inv t hinv
  have hps := reachable_params h
  have hrp : (L.rotate_window_to_current_time t).params = L.params := rotate_params L t
  rw [submit_of_rejected hrej]
  have hov : (L.rotate_window_to_current_time t).overstep_penalty ≤ 0 := by
    show (L.rotate_window_to_current_time t).params.overstep_penalty ≤ 0
    rw [hrp, hps, ofConfig_overstep_zero hpf]
  have hrf : (L.rotate_window_to_current_time t).params.request_overhead_penalty_factor ≤ 0 := by
    rw [hrp, hps]
    show c.request_overhead_penalty_factor ≤ 0
    rw [hrof]
  rw [submit_reject_fst_no_penalty t load hov hrf hrot.2.2.1 hrot.2.2.2, hrp]

theorem C5_rejection_neutrality_witness :
    Reachable { maxload := 10, period := 2 }
      ((LoadLimiter.ofConfig { maxload := 10, period := 2 }).submit 0 10).1 ∧
    (Config.penalty_factor { maxload := 10, period := 2 } = 0 ∧
      Config.request_overhead_penalty_factor { maxload := 10, period := 2 } = 0) ∧
    ((((LoadLimiter.ofConfig { maxload := 10, period := 2 }).submit 0 10).1.submit 0 5).2.accepted
      = false) ∧
    ((((LoadLimiter.ofConfig { maxload := 10, period := 2 }).submit 0 10).1.submit 0 5).1 =
      ⟨((LoadLimiter.ofConfig { maxload := 10, period := 2 }).submit 0 10).1.params,
        (((LoadLimiter.ofConfig { maxload := 10, period := 2 }).submit 0 10).1.rotate_window_to_current_time 0).queue,
        (((LoadLimiter.ofConfig { maxload := 10, period := 2 }).submit 0 10).1.rotate_window_to_current_time 0).window_total,
        true⟩) := by
  have hr : Reachable { maxload := 10, period := 2 }
      ((LoadLimiter.ofConfig { maxload := 10, period := 2 }).submit 0 10).1 :=
    Reachable.submit 0 10
      (Reachable.init (of_decide_eq_true (by with_unfolding_all rfl)))
      (by norm_num)
  have hrej : ((((LoadLimiter.ofConfig { maxload := 10, period := 2 }).submit 0 10).1.submit
      0 5).2.accepted = false) := of_decide_eq_true (by with_unfolding_all rfl)
  exact ⟨hr, ⟨rfl, rfl⟩, hrej, C5_rejection_neutrality hr rfl rfl 0 5 hrej⟩

theorem submit_accepted_iff_probe (L : LoadLimiter) (t load : ℚ) :
    (L.submit t load).2.accepted = true ↔ (L.submit_probe t load).2 = true := by
  unfold LoadLimiter.submit
  dsimp only
  by_cases hp : (L.submit_probe t load).2 = true
  · rw [hp, if_pos rfl, submit_accept_snd]
  · have hp2 : (L.submit_probe t load).2 = false := by
      cases hpe : (L.submit_probe t load).2
      · rfl
      · exact absurd hpe hp
    rw [hp2, if_neg Bool.false_ne_true, submit_reject_snd]

/-- Claim C6: penalty selection and amounts on the reject path.  The
entry penalty equals the integer `floor(maxload * penalty_factor)`
fixed at construction; on the first reject of a burst the total grows
by exactly that amount and is then clamped at `max_cap`; on a
continuing reject with an overhead penalty configured it grows by
exactly `load * request_overhead_penalty_factor` before the same
clamp; in both cases `was_over` is true afterwards. -/
theorem C6_penalty_amounts :
    (∀ c : Config, 0 < c.maxload → 0 ≤ c.penalty_factor →
      (LoadLimiter.ofConfig c).overstep_penalty = ⌊c.maxload * c.penalty_factor⌋) ∧
    (∀ (c : Config) (L : LoadLimiter), Reachable c L → ∀ t load : ℚ,
      L.was_over = false → 0 < L.overstep_penalty →
      (L.submit t load).2.accepted = false →
      ((L.submit t load).1).window_total =
        min ((L.rotate_window_to_current_time t).window_total + (L.overstep_penalty : ℚ))
          L.max_cap ∧
      ((L.submit t load).1).was_over = true) ∧
    (∀ (c : Config) (L : LoadLimiter), Reachable c L → ∀ t load : ℚ,
      L.was_over = true → 0 < L.params.request_overhead_penalty_factor → 0 < load →
      (L.submit t load).2.accepted = false →
      ((L.submit t load).1).window_total =
        min ((L.rotate_window_to_current_time t).window_total +
          load * L.params.request_overhead_penalty_factor) L.max_cap ∧
      ((L.submit t load).1).was_over = true) := by
  refine ⟨fun c h1 h2 => ofConfig_overstep_floor h1 h2, ?_, ?_⟩
  · intro c L h t load hwo hov hrej
    have hinv := reachable_inv h
    have hrot := rotate_inv t hinv
    have hrp := rotate_params L t
    rw [submit_of_rejected hrej]
    have hwo2 : (L.rotate_window_to_current_time t).was_over = false := by
      rw [rotate_was_over]
      exact hwo
    have hov2 : 0 < (L.rotate_window_to_current_time t).overstep_penalty := by
      show 0 < (L.rotate_window_to_current_time t).params.overstep_penalty
      rw [hrp]
      exact hov
    have hne := rotate_queue_ne_nil t hinv.1.2.2.1 hinv.1.2.2.2
    have hc0 : 0 ≤ (L.rotate_window_to_current_time t).params.max_cap := by
      rw [hrp]
      exact le_trans (le_of_lt hinv.1.1) hinv.1.2.1
    have hmain := submit_reject_entry_penalty t load hwo2 hov2 hne hrot.2.1
      hrot.2.2.1 hrot.2.2.2 hc0
    have e1 : (L.rotate_window_to_current_time t).overstep_penalty = L.overstep_penalty :=
      congrArg Params.overstep_penalty hrp
    have e2 : (L.rotate_window_to_current_time t).max_cap = L.max_cap :=
      congrArg Params.max_cap hrp
    refine ⟨?_, hmain.2⟩
    rw [hmain.1, e1, e2]
  · intro c L h t load hwo hrf hload hrej
    have hinv := reachable_inv h
    have hrot := rotate_inv t hinv
    have hrp := rotate_params L t
    rw [submit_of_rejected hrej]
    have hwo2 : (L.rotate_window_to_current_time t).was_over = true := by
      rw [rotate_was_over]
      exact hwo
    have hrf2 : 0 < (L.rotate_window_to_current_time t).params.request_overhead_penalty_factor := by
      rw [hrp]
      exact hrf
    have hp : 0 < load * (L.rotate_window_to_current_time t).params.request_overhead_penalty_factor :=
      mul_pos hload hrf2
    have hne := rotate_queue_ne_nil t hinv.1.2.2.1 hinv.1.2.2.2
    have hc0 : 0 ≤ (L.rotate_window_to_current_time t).params.max_cap := by
      rw [hrp]
      exact le_trans (le_of_lt hinv.1.1) hinv.1.2.1
    have hmain := submit_reject_overhead_penalty t load hwo2 hrf2 hp hne hrot.2.1
      hrot.2.2.1 hrot.2.2.2 hc0
    have e2 : (L.rotate_window_to_current_time t).max_cap = L.max_cap :=
      congrArg Params.max_cap hrp
    have e3 : (L.rotate_window_to_current_time t).params.request_overhead_penalty_factor =
        L.params.request_overhead_penalty_factor :=
      congrArg Params.request_overhead_penalty_factor hrp
    refine ⟨?_, hmain.2⟩
    rw [hmain.1, e2, e3]

theorem C6_penalty_amounts_witness :
    ((LoadLimiter.ofConfig cfgEntry).overstep_penalty = 5) ∧
    (((((LoadLimiter.ofConfig cfgEntry).submit 0 10).1.submit 0 1).1).window_total = 25/2 ∧
      ((((LoadLimiter.ofConfig cfgEntry).submit 0 10).1.submit 0 1).1).was_over = true) ∧
    ((((((LoadLimiter.ofConfig cfgOverhead).submit 0 10).1.submit 0 1).1.submit
        0 1).1).window_total = 12 ∧
      (((((LoadLimiter.ofConfig cfgOverhead).submit 0 10).1.submit 0 1).1.submit
        0 1).1).was_over = true) := by
  have hrP : Reachable cfgEntry ((LoadLimiter.ofConfig cfgEntry).submit 0 10).1 :=
    Reachable.submit 0 10
      (Reachable.init (of_decide_eq_true (by with_unfolding_all rfl))) (by norm_num)
  have hrO : Reachable cfgOverhead
      (((LoadLimiter.ofConfig cfgOverhead).submit 0 10).1.submit 0 1).1 :=
    Reachable.submit 0 1
      (Reachable.submit 0 10
        (Reachable.init (of_decide_eq_true (by with_unfolding_all rfl))) (by norm_num))
      (by norm_num)
  have h1 := C6_penalty_amounts.1 cfgEntry (by norm_num [cfgEntry]) (by norm_num [cfgEntry])
  have h2 := C6_penalty_amounts.2.1 _ _ hrP 0 1
    (of_decide_eq_true (by with_unfolding_all rfl))
    (of_decide_eq_true (by with_unfolding_all rfl))
    (of_decide_eq_true (by with_unfolding_all rfl))
  have h3 := C6_penalty_amounts.2.2 _ _ hrO 0 1
    (of_decide_eq_true (by with_unfolding_all rfl))
    (of_decide_eq_true (by with_unfolding_all rfl))
    (by norm_num)
    (of_decide_eq_true (by with_unfolding_all rfl))
  refine ⟨h1.trans (of_decide_eq_true (by with_unfolding_all rfl)),
    ⟨h2.1.trans (of_decide_eq_true (by with_unfolding_all rfl)), h2.2⟩,
    ⟨h3.1.trans (of_decide_eq_true (by with_unfolding_all rfl)), h3.2⟩⟩

theorem last_load_add_to_last {q : List (ℤ × ℚ)} (x : ℚ) (hne : q ≠ []) :
    ((add_to_last x q).getLast?.map Prod.snd).getD 0 =
      (q.getLast?.map Prod.snd).getD 0 + x := by
  rw [add_to_last_getLast]
  cases hq : q.getLast? with
  | none => exact absurd (List.getLast?_eq_none_iff.mp hq) hne
  | some b => simp

/-- Claim C3 (amended): `submit 0` accepts exactly when the advanced
total is within `maxload` (after penalty injection the total can exceed
`maxload`, and then even a zero load is rejected); on acceptance the
state equals the advanced state with `was_over` cleared, the total and
bucket loads unchanged. -/
theorem C3_zero_load_amended {c : Config} {L : LoadLimiter} (h : Reachable c L) (t : ℚ) :
    ((L.submit t 0).2.accepted = true ↔
      (L.rotate_window_to_current_time t).window_total ≤ L.maxload) ∧
    ((L.rotate_window_to_current_time t).window_total ≤ L.maxload →
      (L.submit t 0).1 =
        ⟨L.params, (L.rotate_window_to_current_time t).queue,
          (L.rotate_window_to_current_time t).window_total, false⟩) := by
  have hinv := reachable_inv h
  have hml : (L.rotate_window_to_current_time t).maxload = L.maxload :=
    congrArg Params.maxload (rotate_params L t)
  have hiff : (L.submit t 0).2.accepted = true ↔
      (L.rotate_window_to_current_time t).window_total ≤ L.maxload := by
    rw [submit_accepted_iff_probe, submit_probe_verdict, add_zero, hml]
  refine ⟨hiff, fun hcap => ?_⟩
  rw [submit_of_accepted (hiff.mpr hcap)]
  have hcap2 : (L.rotate_window_to_current_time t).window_total + 0 ≤
      (L.rotate_window_to_current_time t).params.max_cap := by
    rw [add_zero, rotate_params]
    exact le_trans hcap hinv.1.2.1
  rw [submit_accept_spec 0 hcap2]
  dsimp only
  rw [add_to_last_zero, add_zero, rotate_params]

/-- Claim C3 counterexample: from the initial state of a limiter with
`maxload = 10` and `penalty_factor = 1/2`, accepting 10 and then
rejecting 1 injects the entry penalty and leaves the reachable total at
12.5 > maxload, after which `submit 0` is rejected — the claim that a
zero load always accepts is false. -/
theorem C3_zero_load_counterexample :
    Reachable cfgEntry
      ((((LoadLimiter.ofConfig cfgEntry).submit 0 10).1.submit 0 1).1) ∧
    (((((LoadLimiter.ofConfig cfgEntry).submit 0 10).1.submit 0 1).1.submit
      0 0).2.accepted = false) := by
  refine ⟨Reachable.submit 0 1 (Reachable.submit 0 10 (Reachable.init
    (of_decide_eq_true (by with_unfolding_all rfl))) (by norm_num)) (by norm_num), ?_⟩
  exact of_decide_eq_true (by with_unfolding_all rfl)

theorem C3_zero_load_amended_witness :
    ((LoadLimiter.ofConfig { maxload := 10, period := 2
      }).rotate_window_to_current_time 0).window_total ≤
      (LoadLimiter.ofConfig { maxload := 10, period := 2 }).maxload ∧
    ((LoadLimiter.ofConfig { maxload := 10, period := 2 }).submit 0 0).2.accepted = true ∧
    ((LoadLimiter.ofConfig { maxload := 10, period := 2 }).submit 0 0).1 =
      ⟨(LoadLimiter.ofConfig { maxload := 10, period := 2 }).params,
        ((LoadLimiter.ofConfig { maxload := 10, period := 2
          }).rotate_window_to_current_time 0).queue,
        ((LoadLimiter.ofConfig { maxload := 10, period := 2
          }).rotate_window_to_current_time 0).window_total,
        false⟩ := by
  have hr : Reachable { maxload := 10, period := 2 }
      (LoadLimiter.ofConfig { maxload := 10, period := 2 }) :=
    Reachable.init (of_decide_eq_true (by with_unfolding_all rfl))
  have hc : ((LoadLimiter.ofConfig { maxload := 10, period := 2
      }).rotate_window_to_current_time 0).window_total ≤
      (LoadLimiter.ofConfig { maxload := 10, period := 2 }).maxload :=
    of_decide_eq_true (by with_unfolding_all rfl)
  have happ := C3_zero_load_amended hr 0
  exact ⟨hc, happ.1.mpr hc, happ.2 hc⟩

/-- Claim C10: `submit` does not validate its load argument.  A negative
load that keeps the probe within `maxload` is accepted and decreases
both the total and the newest bucket by its magnitude; no error is
raised (as in the source, where the submit path contains no raise). -/
theorem C10_negative_load {c : Config} {L : LoadLimiter} (h : Reachable c L)
    (t load : ℚ) (hneg : load < 0)
    (hfits : (L.rotate_window_to_current_time t).window_total + load ≤ L.maxload) :
    (L.submit t load).2.accepted = true ∧
    ((L.submit t load).1).window_total =
      (L.rotate_window_to_current_time t).window_total + load ∧
    last_load (L.submit t load).1 =
      last_load (L.rotate_window_to_current_time t) + load := by
  have hinv := reachable_inv h
  have hml : (L.rotate_window_to_current_time t).maxload = L.maxload :=
    congrArg Params.maxload (rotate_params L t)
  have hacc : (L.submit t load).2.accepted = true := by
    rw [submit_accepted_iff_probe, submit_probe_verdict, hml]
    exact hfits
  have hcap2 : (L.rotate_window_to_current_time t).window_total + load ≤
      (L.rotate_window_to_current_time t).params.max_cap := by
    rw [rotate_params]
    exact le_trans hfits hinv.1.2.1
  have hne := rotate_queue_ne_nil t hinv.1.2.2.1 hinv.1.2.2.2
  refine ⟨hacc, ?_, ?_⟩
  · rw [submit_of_accepted hacc, submit_accept_spec load hcap2]
  · rw [submit_of_accepted hacc, submit_accept_spec load hcap2]
    unfold last_load
    dsimp only
    exact last_load_add_to_last load hne

theorem C10_negative_load_witness :
    ((-5 : ℚ) < 0 ∧
      ((LoadLimiter.ofConfig { maxload := 10, period := 2
        }).rotate_window_to_current_time 0).window_total + (-5) ≤
        (LoadLimiter.ofConfig { maxload := 10, period := 2 }).maxload) ∧
    ((LoadLimiter.ofConfig { maxload := 10, period := 2 }).submit 0 (-5)).2.accepted = true ∧
    (((LoadLimiter.ofConfig { maxload := 10, period := 2 }).submit 0 (-5)).1).window_total < 0 := by
  have hr : Reachable { maxload := 10, period := 2 }
      (LoadLimiter.ofConfig { maxload := 10, period := 2 }) :=
    Reachable.init (of_decide_eq_true (by with_unfolding_all rfl))
  have hfits : ((LoadLimiter.ofConfig { maxload := 10, period := 2
      }).rotate_window_to_current_time 0).window_total + (-5) ≤
      (LoadLimiter.ofConfig { maxload := 10, period := 2 }).maxload :=
    of_decide_eq_true (by with_unfolding_all rfl)
  have happ := C10_negative_load hr 0 (-5) (by norm_num) hfits
  refine ⟨⟨by norm_num, hfits⟩, happ.1, ?_⟩
  rw [happ.2.1]
  exact of_decide_eq_true (by with_unfolding_all rfl)

/-- Claim C1 counterexample: with `maxload = 60`, `period = 60`,
`step_period = 3`, accept load 1 at t = 0, advance at t = 60 (the
eviction cutoff is then exactly 0, so the old bucket survives), and
advance again at t = 62.9: the current slot is still 60, so no bucket
is appended and the eviction loop is skipped — the bucket starting at 0
remains although 0 < 62.9 - 60. -/
theorem C1_stale_bucket_counterexample :
    Reachable cfgSlots ((((LoadLimiter.ofConfig cfgSlots).submit 0 1).1.submit 60 0).1) ∧
    ((0 : ℤ), (1 : ℚ)) ∈
      (((((LoadLimiter.ofConfig cfgSlots).submit 0 1).1.submit
        60 0).1).rotate_window_to_current_time (629/10)).queue ∧
    ((0 : ℤ) : ℚ) < 629/10 -
      ((((LoadLimiter.ofConfig cfgSlots).submit 0 1).1.submit 60 0).1).period := by
  refine ⟨Reachable.submit 60 0 (Reachable.submit 0 1 (Reachable.init
    (of_decide_eq_true (by with_unfolding_all rfl))) (by norm_num)) (by norm_num),
    of_decide_eq_true (by with_unfolding_all rfl),
    of_decide_eq_true (by with_unfolding_all rfl)⟩

/-- Claim C1 (amended): the eviction guarantee holds exactly when the
advance routine appends a new bucket (window empty or last bucket not
in the current slot).  On a start-sorted window whose starts do not
exceed the new slot start, after such an advance no remaining bucket
has `start < t - period`.  When the last bucket already matches the
current slot the routine is a no-op and stale buckets can persist. -/
theorem C1_eviction_amended {L : LoadLimiter} (t : ℚ)
    (happend : ¬ (L.queue.getLast?.map Prod.fst =
      some (rotate_t_start L.step_period t)))
    (hmono : startsMono L.queue)
    (hle : ∀ b ∈ L.queue, b.1 ≤ rotate_t_start L.step_period t)
    (h1 : 0 < L.step_period) :
    ∀ b ∈ (L.rotate_window_to_current_time t).queue,
      ¬ ((b.1 : ℚ) < t - L.period) := by
  unfold LoadLimiter.rotate_window_to_current_time
  dsimp only
  rw [if_neg happend]
  intro b hb
  refine evict_all_ge (t - L.params.period)
    (L.queue ++ [(rotate_t_start L.params.step_period t, 0)]) L.window_total ?_ b hb
  rw [startsMono] at hmono
  refine List.pairwise_append.mpr ⟨hmono, List.pairwise_singleton _ _, ?_⟩
  intro a ha x hx
  rw [List.mem_singleton] at hx
  rw [hx]
  exact hle a ha

theorem C1_eviction_amended_witness :
    (¬ (((((LoadLimiter.ofConfig cfgSlots).submit 0 1).1).queue.getLast?.map Prod.fst) =
      some (rotate_t_start (((LoadLimiter.ofConfig cfgSlots).submit 0 1).1).step_period 60))) ∧
    startsMono (((LoadLimiter.ofConfig cfgSlots).submit 0 1).1).queue ∧
    (∀ b ∈ (((LoadLimiter.ofConfig cfgSlots).submit 0 1).1).queue,
      b.1 ≤ rotate_t_start (((LoadLimiter.ofConfig cfgSlots).submit 0 1).1).step_period 60) ∧
    (0 : ℤ) < (((LoadLimiter.ofConfig cfgSlots).submit 0 1).1).step_period ∧
    (∀ b ∈ ((((LoadLimiter.ofConfig cfgSlots).submit
        0 1).1).rotate_window_to_current_time 60).queue,
      ¬ ((b.1 : ℚ) < 60 - (((LoadLimiter.ofConfig cfgSlots).submit 0 1).1).period)) := by
  have happend : ¬ (((((LoadLimiter.ofConfig cfgSlots).submit 0 1).1).queue.getLast?.map
      Prod.fst) = some (rotate_t_start
        (((LoadLimiter.ofConfig cfgSlots).submit 0 1).1).step_period 60)) :=
    of_decide_eq_true (by with_unfolding_all rfl)
  have hq : (((LoadLimiter.ofConfig cfgSlots).submit 0 1).1).queue = [((0 : ℤ), (1 : ℚ))] :=
    of_decide_eq_true (by with_unfolding_all rfl)
  have hmono : startsMono (((LoadLimiter.ofConfig cfgSlots).submit 0 1).1).queue := by
    unfold startsMono
    rw [hq]
    exact List.pairwise_singleton _ _
  have hle : ∀ b ∈ (((LoadLimiter.ofConfig cfgSlots).submit 0 1).1).queue,
      b.1 ≤ rotate_t_start (((LoadLimiter.ofConfig cfgSlots).submit 0 1).1).step_period 60 :=
    of_decide_eq_true (by with_unfolding_all rfl)
  have h1 : (0 : ℤ) < (((LoadLimiter.ofConfig cfgSlots).submit 0 1).1).step_period :=
    of_decide_eq_true (by with_unfolding_all rfl)
  exact ⟨happend, hmono, hle, h1, C1_eviction_amended 60 happend hmono hle h1⟩

theorem tta_walk_eq_reference : ∀ (q : List (ℤ × ℚ)) (acc to_free : ℚ),
    tta_walk q acc to_free = tta_reference_walk q (to_free - acc)
  | [], acc, tf => rfl
  | (s, l) :: rest, acc, tf => by
    unfold tta_walk tta_reference_walk
    by_cases h : tf ≤ acc + l
    · rw [if_pos h, if_pos (by linarith)]
    · rw [if_neg h, if_neg (by intro hc; exact h (by linarith)),
        tta_walk_eq_reference rest (acc + l) tf]
      congr 1
      ring

theorem compute_response_tta_eq_reference {M : LoadLimiter} (t load : ℚ)
    (hml : load ≤ M.maxload) :
    M.compute_response_tta t load =
      tta_reference M.queue M.window_total M.maxload M.period t load := by
  unfold LoadLimiter.compute_response_tta tta_reference
  dsimp only
  rw [if_neg (not_lt.mpr hml)]
  rw [tta_walk_eq_reference M.queue 0, sub_zero]
  generalize (if M.maxload < M.window_total then load + (M.window_total - M.maxload)
      else load - (M.maxload - M.window_total)) = tf
  split
  · rfl
  · cases tta_reference_walk M.queue tf with
    | none => rfl
    | some s => rfl

/-- Claim C4: for every rejected submit with TTA computation enabled and
`0 ≤ load ≤ maxload`, the returned `retry_in` equals the reference TTA
definition of §4.4 (to_free from the current total and headroom, walk
from oldest to newest until the accumulation reaches to_free, bucket
start + period - now; 1.0 on a non-positive to_free; null when the walk
exhausts the window), evaluated on the window as the reject bookkeeping
left it. -/
theorem C4_tta_reference {L : LoadLimiter} (t load : ℚ)
    (hrej : (L.submit t load).2.accepted = false)
    (htta : L.compute_tta = true)
    (h0 : 0 ≤ load) (hml : load ≤ L.maxload) :
    (L.submit t load).2.retry_in =
      tta_reference ((L.submit t load).1).queue ((L.submit t load).1).window_total
        L.maxload L.period t load := by
  rw [submit_of_rejected hrej, submit_reject_snd]
  have hparams : (((L.rotate_window_to_current_time t).submit_reject t load).1).params =
      L.params :=
    (submit_reject_params (L.rotate_window_to_current_time t) t load).trans
      (rotate_params L t)
  have hct : (((L.rotate_window_to_current_time t).submit_reject t load).1).compute_tta =
      true := (congrArg Params.compute_tta hparams).trans htta
  have e1 : (((L.rotate_window_to_current_time t).submit_reject t load).1).maxload =
      L.maxload := congrArg Params.maxload hparams
  have e2 : (((L.rotate_window_to_current_time t).submit_reject t load).1).period =
      L.period := congrArg Params.period hparams
  dsimp only
  rw [hct, if_pos rfl,
    compute_response_tta_eq_reference t load (by rw [e1]; exact hml), e1, e2]

theorem C4_tta_reference_witness :
    ((((LoadLimiter.ofConfig { maxload := 10, period := 2 }).submit 0 10).1.submit
      0 1).2.accepted = false ∧
      (((LoadLimiter.ofConfig { maxload := 10, period := 2 }).submit 0 10).1).compute_tta
        = true ∧
      (0 : ℚ) ≤ 1 ∧
      (1 : ℚ) ≤ (((LoadLimiter.ofConfig { maxload := 10, period := 2 }).submit
        0 10).1).maxload) ∧
    ((((LoadLimiter.ofConfig { maxload := 10, period := 2 }).submit 0 10).1.submit
      0 1).2.retry_in =
      tta_reference
        ((((LoadLimiter.ofConfig { maxload := 10, period := 2 }).submit 0 10).1.submit
          0 1).1).queue
        ((((LoadLimiter.ofConfig { maxload := 10, period := 2 }).submit 0 10).1.submit
          0 1).1).window_total
        (((LoadLimiter.ofConfig { maxload := 10, period := 2 }).submit 0 10).1).maxload
        (((LoadLimiter.ofConfig { maxload := 10, period := 2 }).submit 0 10).1).period
        0 1) := by
  have hrej : (((LoadLimiter.ofConfig { maxload := 10, period := 2 }).submit 0 10).1.submit
      0 1).2.accepted = false := of_decide_eq_true (by with_unfolding_all rfl)
  have htta : (((LoadLimiter.ofConfig { maxload := 10, period := 2 }).submit
      0 10).1).compute_tta = true := of_decide_eq_true (by with_unfolding_all rfl)
  have hml : (1 : ℚ) ≤ (((LoadLimiter.ofConfig { maxload := 10, period := 2 }).submit
      0 10).1).maxload := of_decide_eq_true (by with_unfolding_all rfl)
  exact ⟨⟨hrej, htta, by norm_num, hml⟩,
    C4_tta_reference 0 1 hrej htta (by norm_num) hml⟩

theorem getD_mem {α : Type} {l : List α} {i : ℕ} (h : i < l.length) (d : α) :
    l.getD i d ∈ l := by
  rw [List.getD_eq_getElem?_getD, List.getElem?_eq_getElem h]
  exact List.getElem_mem h

theorem getD_map_lt {α β : Type} (f : α → β) (l : List α) (i : ℕ) (h : i < l.length)
    (d : β) (d0 : α) : (l.map f).getD i d = f (l.getD i d0) := by
  rw [List.getD_eq_getElem?_getD, List.getD_eq_getElem?_getD, List.getElem?_map,
    List.getElem?_eq_getElem h]
  rfl

theorem probe_phase_fst (t load : ℚ) : ∀ ls : List LoadLimiter,
    (probe_phase t load ls).1 = ls.map (fun L =>
      if (L.submit_probe t load).2 then ((L.submit_probe t load).1, true)
      else (((L.submit_probe t load).1.submit_reject t load).1, false))
  | [] => rfl
  | L :: rest => by
    unfold probe_phase
    dsimp only
    rw [List.map_cons]
    split
    · rename_i hp
      dsimp only
      rw [probe_phase_fst t load rest]
    · rename_i hp
      dsimp only
      rw [probe_phase_fst t load rest]

theorem probe_phase_all_true (t load : ℚ) : ∀ ls : List LoadLimiter,
    (probe_phase t load ls).2.1 = true →
    ∀ L ∈ ls, (L.submit_probe t load).2 = true
  | [] => fun _ L hL => absurd hL (List.not_mem_nil L)
  | L :: rest => by
    unfold probe_phase
    dsimp only
    split
    · rename_i hp
      dsimp only
      intro hall M hM
      rcases List.mem_cons.mp hM with h | h
      · rw [h]
        exact hp
      · exact probe_phase_all_true t load rest hall M h
    · rename_i hp
      dsimp only
      intro hfalse
      exact absurd hfalse Bool.false_ne_true

/-- Claim C2: composite two-phase commit atomicity.  When the composite
submit is rejected, a child whose probe passed is left exactly in its
advanced (probe-time) state: the load was never added to it, and only
the failed children received their reject bookkeeping, on the spot
during the probe phase.  When the composite submit is accepted, every
child's total and newest-bucket load grow by exactly the submitted
load over its advanced state. -/
theorem C2_composite_atomicity (ls : List LoadLimiter) (t x : ℚ) (i : ℕ)
    (hwf : ∀ L ∈ ls, L.maxload ≤ L.max_cap ∧ 0 < L.step_period ∧
      (L.step_period : ℚ) ≤ L.period)
    (hi : i < ls.length) :
    ((compositeSubmit ls t x).2.accepted = false →
      ((ls.getD i limiter0).rotate_window_to_current_time t).window_total + x ≤
        ((ls.getD i limiter0).rotate_window_to_current_time t).maxload →
      (compositeSubmit ls t x).1.getD i limiter0 =
        (ls.getD i limiter0).rotate_window_to_current_time t) ∧
    ((compositeSubmit ls t x).2.accepted = true →
      ((compositeSubmit ls t x).1.getD i limiter0).window_total =
        ((ls.getD i limiter0).rotate_window_to_current_time t).window_total + x ∧
      last_load ((compositeSubmit ls t x).1.getD i limiter0) =
        last_load ((ls.getD i limiter0).rotate_window_to_current_time t) + x) := by
  have hmem := getD_mem hi limiter0
  have hwfi := hwf (ls.getD i limiter0) hmem
  have hrp := rotate_params (ls.getD i limiter0) t
  have hne : ((ls.getD i limiter0).rotate_window_to_current_time t).queue ≠ [] :=
    rotate_queue_ne_nil t hwfi.2.1 hwfi.2.2
  unfold compositeSubmit
  dsimp only
  by_cases hall : (probe_phase t x ls).2.1 = true
  · rw [hall, if_pos rfl]
    dsimp only
    constructor
    · intro hcon
      exact absurd hcon (by simp)
    · intro _
      have hp : ((ls.getD i limiter0).submit_probe t x).2 = true :=
        probe_phase_all_true t x ls hall (ls.getD i limiter0) hmem
      have hpass := (submit_probe_verdict (ls.getD i limiter0) t x).mp hp
      have hcap : ((ls.getD i limiter0).rotate_window_to_current_time t).window_total + x ≤
          ((ls.getD i limiter0).rotate_window_to_current_time t).params.max_cap := by
        refine le_trans hpass ?_
        show ((ls.getD i limiter0).rotate_window_to_current_time t).params.maxload ≤ _
        rw [hrp]
        exact hwfi.1
      rw [probe_phase_fst, List.map_map, getD_map_lt _ ls i hi limiter0 limiter0]
      dsimp only [Function.comp]
      rw [if_pos hp]
      dsimp only
      rw [submit_probe_fst, submit_accept_spec x hcap]
      constructor
      · rfl
      · show (((add_to_last x
          ((ls.getD i limiter0).rotate_window_to_current_time t).queue).getLast?).map
            Prod.snd).getD 0 = _
        rw [last_load_add_to_last x hne]
        rfl
  · have hall2 : (probe_phase t x ls).2.1 = false := by
      cases hpe : (probe_phase t x ls).2.1
      · rfl
      · exact absurd hpe hall
    rw [hall2, if_neg Bool.false_ne_true]
    dsimp only
    constructor
    · intro _ hpass
      have hp : ((ls.getD i limiter0).submit_probe t x).2 = true :=
        (submit_probe_verdict (ls.getD i limiter0) t x).mpr hpass
      rw [probe_phase_fst, List.map_map, getD_map_lt _ ls i hi limiter0 limiter0]
      dsimp only [Function.comp]
      rw [if_pos hp]
      exact submit_probe_fst (ls.getD i limiter0) t x
    · intro hcon
      exact absurd hcon (by simp)

theorem C2_composite_atomicity_witness :
    ((∀ L ∈ [LoadLimiter.ofConfig { maxload := 10, period := 2 },
        LoadLimiter.ofConfig cfgWide],
      L.maxload ≤ L.max_cap ∧ 0 < L.step_period ∧ (L.step_period : ℚ) ≤ L.period) ∧
      (0 : ℕ) < [LoadLimiter.ofConfig { maxload := 10, period := 2 },
        LoadLimiter.ofConfig cfgWide].length) ∧
    (compositeSubmit [LoadLimiter.ofConfig { maxload := 10, period := 2 },
      LoadLimiter.ofConfig cfgWide] 0 1).2.accepted = true ∧
    (((compositeSubmit [LoadLimiter.ofConfig { maxload := 10, period := 2 },
        LoadLimiter.ofConfig cfgWide] 0 1).1.getD 0 limiter0).window_total =
      (([LoadLimiter.ofConfig { maxload := 10, period := 2 },
        LoadLimiter.ofConfig cfgWide].getD 0
          limiter0).rotate_window_to_current_time 0).window_total + 1 ∧
      last_load ((compositeSubmit [LoadLimiter.ofConfig { maxload := 10, period := 2 },
        LoadLimiter.ofConfig cfgWide] 0 1).1.getD 0 limiter0) =
        last_load (([LoadLimiter.ofConfig { maxload := 10, period := 2 },
          LoadLimiter.ofConfig cfgWide].getD 0
            limiter0).rotate_window_to_current_time 0) + 1) := by
  have hwf : ∀ L ∈ [LoadLimiter.ofConfig { maxload := 10, period := 2 },
      LoadLimiter.ofConfig cfgWide],
      L.maxload ≤ L.max_cap ∧ 0 < L.step_period ∧ (L.step_period : ℚ) ≤ L.period :=
    of_decide_eq_true (by with_unfolding_all rfl)
  have hacc : (compositeSubmit [LoadLimiter.ofConfig { maxload := 10, period := 2 },
      LoadLimiter.ofConfig cfgWide] 0 1).2.accepted = true :=
    of_decide_eq_true (by with_unfolding_all rfl)
  exact ⟨⟨hwf, by norm_num⟩, hacc,
    (C2_composite_atomicity _ 0 1 0 hwf (by norm_num)).2 hacc⟩

theorem cap_excess_was_over (L : LoadLimiter) : L.cap_excess.was_over = L.was_over := by
  unfold LoadLimiter.cap_excess
  split <;> rfl

/-- When the state was not already over, or no overhead penalty is
configured, the reject bookkeeping does not depend on the load. -/
theorem submit_reject_fst_load_independent {R : LoadLimiter} (t l1 l2 : ℚ)
    (hcase : R.was_over = false ∨ R.params.request_overhead_penalty_factor ≤ 0) :
    (R.submit_reject t l1).1 = (R.submit_reject t l2).1 := by
  unfold LoadLimiter.submit_reject
  dsimp only
  rcases hcase with hwo | hrf
  · rw [cap_excess_was_over, hwo]
    simp only [if_neg Bool.false_ne_true]
  · split
    · have hrf2 : ¬ (0 < R.cap_excess.params.request_overhead_penalty_factor) := by
        rw [cap_excess_params]
        exact not_lt.mpr hrf
      simp only [if_neg hrf2]
    · rfl

/-- The reject path never decreases the running total of a drift-free
state within the cap. -/
theorem submit_reject_wt_ge {R : LoadLimiter} (t load : ℚ)
    (hl : loadsOK R.queue) (hs : R.window_total = qsum R.queue)
    (hc : R.window_total ≤ R.max_cap) (hc0 : 0 ≤ R.params.max_cap) :
    R.window_total ≤ ((R.submit_reject t load).1).window_total := by
  unfold LoadLimiter.submit_reject
  dsimp only
  rw [cap_excess_noop hc]
  split
  · split
    · split
      · have hd := distribute_penalty_spec (L := R)
          (load * R.params.request_overhead_penalty_factor)
          R.params.request_overhead_penalty_distribution_factor hl hs hc0
        rw [hd.2.2]
        split
        · exact le_refl _
        · rename_i hno
          have h2 := not_or.mp hno
          have h3 : 0 < load * R.params.request_overhead_penalty_factor :=
            not_le.mp h2.2
          exact le_min (by linarith) hc
      · exact le_refl _
    · exact le_refl _
  · rw [correct_driftin_ascending_noop hs]
    split
    · rename_i hov
      have hd := distribute_penalty_spec (L := R) ((R.overstep_penalty : ℚ))
        R.params.penalty_distribution_factor hl hs hc0
      rw [hd.2.2]
      split
      · exact le_refl _
      · rename_i hno
        have h2 := not_or.mp hno
        have h3 : 0 < ((R.overstep_penalty : ℤ) : ℚ) := not_le.mp h2.2
        exact le_min (by linarith) hc
    · exact le_refl _

theorem tta_walk_mem : ∀ (q : List (ℤ × ℚ)) (acc tf : ℚ) (s : ℤ),
    tta_walk q acc tf = some s → ∃ l, (s, l) ∈ q
  | [], _, _, s => by
    unfold tta_walk
    intro h
    exact absurd h (by simp)
  | (s0, l0) :: rest, acc, tf, s => by
    unfold tta_walk
    split
    · intro h
      have h2 : s0 = s := Option.some.inj h
      exact ⟨l0, by rw [← h2]; exact List.mem_cons_self _ _⟩
    · intro h
      obtain ⟨l, hl⟩ := tta_walk_mem rest (acc + l0) tf s h
      exact ⟨l, List.mem_cons_of_mem _ hl⟩

/-- On a start-sorted window, a larger amount to free stops the TTA walk
at a later (or the same) bucket. -/
theorem tta_walk_mono : ∀ (q : List (ℤ × ℚ)), startsMono q →
    ∀ (acc tf1 tf2 : ℚ) (s1 s2 : ℤ), tf1 ≤ tf2 →
      tta_walk q acc tf1 = some s1 → tta_walk q acc tf2 = some s2 → s1 ≤ s2
  | [], _, acc, tf1, tf2, s1, s2, hle => by
    unfold tta_walk
    intro h
    exact absurd h (by simp)
  | (s0, l0) :: rest, hmono, acc, tf1, tf2, s1, s2, hle => by
    have hm1 := (List.pairwise_cons.mp hmono).1
    have hm2 := (List.pairwise_cons.mp hmono).2
    unfold tta_walk
    by_cases c1 : tf1 ≤ acc + l0
    · rw [if_pos c1]
      intro h1
      have hs1 : s0 = s1 := Option.some.inj h1
      by_cases c2 : tf2 ≤ acc + l0
      · rw [if_pos c2]
        intro h2
        have hs2 : s0 = s2 := Option.some.inj h2
        rw [← hs1, ← hs2]
      · rw [if_neg c2]
        intro h2
        obtain ⟨l, hl⟩ := tta_walk_mem rest (acc + l0) tf2 s2 h2
        rw [← hs1]
        exact hm1 (s2, l) hl
    · rw [if_neg c1, if_neg (fun c2 => c1 (le_trans hle c2))]
      exact tta_walk_mono rest hm2 (acc + l0) tf1 tf2 s1 s2 hle

theorem tta_to_free_eq (maxload wt load : ℚ) :
    (if maxload < wt then load + (wt - maxload) else load - (maxload - wt)) =
      load + (wt - maxload) := by
  split <;> ring

/-- For a fixed window, the TTA estimate is monotone in the load as long
as the first amount to free is positive and the starts are sorted. -/
theorem compute_response_tta_mono {M : LoadLimiter} (t l1 l2 r1 r2 : ℚ)
    (hmono : startsMono M.queue)
    (hle : l1 ≤ l2) (hml2 : l2 ≤ M.maxload)
    (hpos : 0 < l1 + (M.window_total - M.maxload))
    (h1 : M.compute_response_tta t l1 = some r1)
    (h2 : M.compute_response_tta t l2 = some r2) : r1 ≤ r2 := by
  unfold LoadLimiter.compute_response_tta at h1 h2
  rw [if_neg (not_lt.mpr (le_trans hle hml2)), tta_to_free_eq,
    if_neg (not_le.mpr hpos)] at h1
  have hpos2 : 0 < l2 + (M.window_total - M.maxload) := by linarith
  rw [if_neg (not_lt.mpr hml2), tta_to_free_eq, if_neg (not_le.mpr hpos2)] at h2
  cases hw1 : tta_walk M.queue 0 (l1 + (M.window_total - M.maxload)) with
  | none =>
    rw [hw1] at h1
    exact absurd h1 (by simp)
  | some s1 =>
    rw [hw1] at h1
    cases hw2 : tta_walk M.queue 0 (l2 + (M.window_total - M.maxload)) with
    | none =>
      rw [hw2] at h2
      exact absurd h2 (by simp)
    | some s2 =>
      rw [hw2] at h2
      have hss := tta_walk_mono M.queue hmono 0 _ _ s1 s2 (by linarith) hw1 hw2
      have hv1 : ((s1 : ℚ) + M.period - t) = r1 := Option.some.inj h1
      have hv2 : ((s2 : ℚ) + M.period - t) = r2 := Option.some.inj h2
      have hcast : (s1 : ℚ) ≤ (s2 : ℚ) := by exact_mod_cast hss
      rw [← hv1, ← hv2]
      linarith

/-- Claim C9 (amended): `retry_in` is monotone in the load whenever the
reject bookkeeping does not depend on the load — that is, when the
limiter was not already over (the entry penalty is a fixed amount) or
when no overhead penalty is configured — for windows with sorted bucket
starts.  With a configured overhead penalty the bookkeeping itself
varies with the load and monotonicity fails (see the counterexample). -/
theorem C9_tta_monotonicity_amended {c : Config} {L : LoadLimiter} (h : Reachable c L)
    (t l1 l2 r1 r2 : ℚ)
    (hcase : L.was_over = false ∨ L.params.request_overhead_penalty_factor ≤ 0)
    (hmono : startsMono ((L.submit t l1).1).queue)
    (hle : l1 ≤ l2) (hml2 : l2 ≤ L.maxload)
    (hrej1 : (L.submit t l1).2.accepted = false)
    (hrej2 : (L.submit t l2).2.accepted = false)
    (hr1 : (L.submit t l1).2.retry_in = some r1)
    (hr2 : (L.submit t l2).2.retry_in = some r2) :
    r1 ≤ r2 := by
  have hinv := reachable_inv h
  have hrot := rotate_inv t hinv
  have hprobe1 : ¬ ((L.rotate_window_to_current_time t).window_total + l1 ≤
      (L.rotate_window_to_current_time t).maxload) := by
    intro hcon
    have hacc := (submit_accepted_iff_probe L t l1).mpr
      ((submit_probe_verdict L t l1).mpr hcon)
    rw [hrej1] at hacc
    exact Bool.false_ne_true hacc
  have hcase2 : (L.rotate_window_to_current_time t).was_over = false ∨
      (L.rotate_window_to_current_time t).params.request_overhead_penalty_factor ≤ 0 := by
    rcases hcase with h1 | h1
    · exact Or.inl (by rw [rotate_was_over]; exact h1)
    · exact Or.inr (by rw [rotate_params]; exact h1)
  have hsame := submit_reject_fst_load_independent
    (R := L.rotate_window_to_current_time t) t l1 l2 hcase2
  have heq1 := submit_of_rejected hrej1
  have heq2 := submit_of_rejected hrej2
  rw [heq1, submit_reject_snd] at hr1
  rw [heq2, submit_reject_snd] at hr2
  dsimp only at hr1 hr2
  have hparams : (((L.rotate_window_to_current_time t).submit_reject t l1).1).params =
      L.params :=
    (submit_reject_params (L.rotate_window_to_current_time t) t l1).trans
      (rotate_params L t)
  by_cases hct :
      (((L.rotate_window_to_current_time t).submit_reject t l1).1).compute_tta = true
  · rw [hct, if_pos rfl] at hr1
    have hct2 : (((L.rotate_window_to_current_time t).submit_reject t l2).1).compute_tta =
        true := by
      rw [← hsame]
      exact hct
    rw [hct2, if_pos rfl, ← hsame] at hr2
    have e1 : (((L.rotate_window_to_current_time t).submit_reject t l1).1).maxload =
        L.maxload := congrArg Params.maxload hparams
    have hwtge := submit_reject_wt_ge (R := L.rotate_window_to_current_time t) t l1
      hrot.2.1 hrot.2.2.1 hrot.2.2.2
      (by rw [rotate_params]; exact le_trans (le_of_lt hinv.1.1) hinv.1.2.1)
    have erot : (L.rotate_window_to_current_time t).maxload = L.maxload :=
      congrArg Params.maxload (rotate_params L t)
    refine compute_response_tta_mono t l1 l2 r1 r2 ?_ hle ?_ ?_ hr1 hr2
    · rw [heq1] at hmono
      exact hmono
    · rw [e1]
      exact hml2
    · rw [e1]
      rw [erot] at hprobe1
      push_neg at hprobe1
      linarith
  · have hctf :
        (((L.rotate_window_to_current_time t).submit_reject t l1).1).compute_tta = false := by
      cases hpe : (((L.rotate_window_to_current_time t).submit_reject t l1).1).compute_tta
      · rfl
      · exact absurd hpe hct
    rw [hctf, if_neg Bool.false_ne_true] at hr1
    exact absurd hr1 (by simp)

/-- Claim C9 counterexample: with an overhead penalty factor of 2 spread
over 2 buckets, loads 1 and 1.001 fall on opposite sides of the
`amount_for_bucket ≤ 1` fallback: load 1 puts its whole penalty on the
newest bucket while load 1.001 also feeds the older bucket, letting the
TTA walk stop one bucket earlier — `retry_in` drops from 100 to 95
although the load grew. -/
theorem C9_tta_monotonicity_counterexample :
    Reachable cfgTTA ((((LoadLimiter.ofConfig cfgTTA).submit 995 (5/2)).1.submit
      1000 (195/2)).1.submit 1000 1).1 ∧
    ((1 : ℚ) ≤ 1001/1000 ∧
      (1001/1000 : ℚ) ≤ (((((LoadLimiter.ofConfig cfgTTA).submit 995 (5/2)).1.submit
        1000 (195/2)).1.submit 1000 1).1).maxload) ∧
    ((((((LoadLimiter.ofConfig cfgTTA).submit 995 (5/2)).1.submit
        1000 (195/2)).1.submit 1000 1).1.submit 1000 1).2.accepted = false ∧
      (((((LoadLimiter.ofConfig cfgTTA).submit 995 (5/2)).1.submit
        1000 (195/2)).1.submit 1000 1).1.submit 1000 (1001/1000)).2.accepted = false) ∧
    (((((LoadLimiter.ofConfig cfgTTA).submit 995 (5/2)).1.submit
      1000 (195/2)).1.submit 1000 1).1.submit 1000 1).2.retry_in = some 100 ∧
    (((((LoadLimiter.ofConfig cfgTTA).submit 995 (5/2)).1.submit
      1000 (195/2)).1.submit 1000 1).1.submit 1000 (1001/1000)).2.retry_in = some 95 ∧
    ¬ ((100 : ℚ) ≤ 95) := by
  refine ⟨Reachable.submit 1000 1 (Reachable.submit 1000 (195/2) (Reachable.submit
      995 (5/2) (Reachable.init (of_decide_eq_true (by with_unfolding_all rfl)))
      (by norm_num)) (by norm_num)) (by norm_num),
    ⟨by norm_num, of_decide_eq_true (by with_unfolding_all rfl)⟩,
    ⟨of_decide_eq_true (by with_unfolding_all rfl),
      of_decide_eq_true (by with_unfolding_all rfl)⟩,
    of_decide_eq_true (by with_unfolding_all rfl),
    of_decide_eq_true (by with_unfolding_all rfl),
    by norm_num⟩

theorem C9_tta_monotonicity_amended_witness :
    Reachable { maxload := 10, period := 2 }
      ((LoadLimiter.ofConfig { maxload := 10, period := 2 }).submit 0 10).1 ∧
    (((LoadLimiter.ofConfig { maxload := 10, period := 2 }).submit 0 10).1).was_over
      = false ∧
    startsMono (((((LoadLimiter.ofConfig { maxload := 10, period := 2 }).submit
      0 10).1).submit 0 1).1).queue ∧
    ((((LoadLimiter.ofConfig { maxload := 10, period := 2 }).submit 0 10).1.submit
      0 1).2.accepted = false ∧
      (((LoadLimiter.ofConfig { maxload := 10, period := 2 }).submit 0 10).1.submit
        0 2).2.accepted = false) ∧
    ((((LoadLimiter.ofConfig { maxload := 10, period := 2 }).submit 0 10).1.submit
      0 1).2.retry_in = some 2 ∧
      (((LoadLimiter.ofConfig { maxload := 10, period := 2 }).submit 0 10).1.submit
        0 2).2.retry_in = some 2) ∧
    (2 : ℚ) ≤ 2 := by
  have hr : Reachable { maxload := 10, period := 2 }
      ((LoadLimiter.ofConfig { maxload := 10, period := 2 }).submit 0 10).1 :=
    Reachable.submit 0 10
      (Reachable.init (of_decide_eq_true (by with_unfolding_all rfl))) (by norm_num)
  have hwo : (((LoadLimiter.ofConfig { maxload := 10, period := 2 }).submit
      0 10).1).was_over = false := of_decide_eq_true (by with_unfolding_all rfl)
  have hq : (((((LoadLimiter.ofConfig { maxload := 10, period := 2 }).submit
      0 10).1).submit 0 1).1).queue = [((0 : ℤ), (10 : ℚ))] :=
    of_decide_eq_true (by with_unfolding_all rfl)
  have hmono : startsMono (((((LoadLimiter.ofConfig { maxload := 10, period := 2
      }).submit 0 10).1).submit 0 1).1).queue := by
    unfold startsMono
    rw [hq]
    exact List.pairwise_singleton _ _
  have hrej1 : (((LoadLimiter.ofConfig { maxload := 10, period := 2 }).submit
      0 10).1.submit 0 1).2.accepted = false :=
    of_decide_eq_true (by with_unfolding_all rfl)
  have hrej2 : (((LoadLimiter.ofConfig { maxload := 10, period := 2 }).submit
      0 10).1.submit 0 2).2.accepted = false :=
    of_decide_eq_true (by with_unfolding_all rfl)
  have hr1 : (((LoadLimiter.ofConfig { maxload := 10, period := 2 }).submit
      0 10).1.submit 0 1).2.retry_in = some 2 :=
    of_decide_eq_true (by with_unfolding_all rfl)
  have hr2 : (((LoadLimiter.ofConfig { maxload := 10, period := 2 }).submit
      0 10).1.submit 0 2).2.retry_in = some 2 :=
    of_decide_eq_true (by with_unfolding_all rfl)
  exact ⟨hr, hwo, hmono, ⟨hrej1, hrej2⟩, ⟨hr1, hr2⟩,
    C9_tta_monotonicity_amended hr 0 1 2 2 2 (Or.inl hwo) hmono (by norm_num)
      (of_decide_eq_true (by with_unfolding_all rfl)) hrej1 hrej2 hr1 hr2⟩
